import Mathlib

/-!
Verification development for the Calibre MCP server orchestration layer
(`src/worker_pool.py`, `src/logic/__init__.py`, `src/logic/metadata_ops.py`,
`src/logic/permissions.py`, `src/logic/text_search.py`).

The Python code is shallowly embedded: JSON-style Python values become the
inductive `Value`; dictionaries become insertion-ordered association lists
(Python 3.7+ dicts preserve insertion order); exceptions become `Except`;
the worker subprocess is abstracted to the scripted byte streams the pool
reads and writes.  External collaborators (the `nltk` Porter stemmer, the
`dateutil` date parser, `json.loads`) are not repository code and enter as
explicit function parameters, so every theorem quantifies over them.
-/

namespace CalibreMcp

/-- A JSON-style Python value, as produced by `json.loads` on the MCP side and
passed into the logic layer.  Change-set values, schema entries and RPC
payloads all travel as these (`datetime` objects cannot arrive over JSON, so
the `isinstance(value, datetime)` branch of the validator is unreachable in
this embedding and is noted where it occurs). -/
inductive Value where
  | vStr : String → Value
  | vInt : Int → Value
  | vFloat : Rat → Value
  | vBool : Bool → Value
  | vNone : Value
  | vList : List Value → Value
  | vDict : List (String × Value) → Value
deriving Repr

/-- Key lookup in an insertion-ordered association list (Python `d[k]` /
`d.get(k)`). -/
def alistGet? (kvs : List (String × Value)) (k : String) : Option Value :=
  (kvs.find? (fun kv => kv.1 = k)).map (·.2)

/-- Python `k in d` for a dict. -/
def alistHasKey (kvs : List (String × Value)) (k : String) : Bool :=
  (kvs.find? (fun kv => kv.1 = k)).isSome

/-- Digit run to a natural number. -/
def digitsVal (ds : List Char) : Nat :=
  ds.foldl (fun acc c => acc * 10 + (c.toNat - '0'.toNat)) 0

/-- Python `str.strip()` (both-ends whitespace trim), implemented over the
character list so that it evaluates by kernel reduction. -/
def pyStrip (s : String) : String :=
  String.mk (((s.data.dropWhile Char.isWhitespace).reverse.dropWhile Char.isWhitespace).reverse)

/-- Python `str.lower()` (ASCII fragment, like the rest of the character
model). -/
def pyLower (s : String) : String :=
  String.mk (s.data.map Char.toLower)

/-- Python `p.startswith(q)` by code points. -/
def pyStartsWith (s pfx : String) : Bool :=
  pfx.data.isPrefixOf s.data

/-- Worker for `pySplit`: fuel-driven scan (the fuel starts above the
character count and each step consumes at least one character, so it never
runs out; structural recursion on the fuel keeps the definition
kernel-computable). -/
def pySplitGo (sep : List Char) : Nat → List Char → List Char → List (List Char)
  | 0, rest, acc => [acc.reverse ++ rest]
  | _ + 1, [], acc => [acc.reverse]
  | fuel + 1, c :: rest, acc =>
    if sep.isPrefixOf (c :: rest) then
      acc.reverse :: pySplitGo sep fuel ((c :: rest).drop sep.length) []
    else pySplitGo sep fuel rest (c :: acc)

/-- Python `s.split(sep)` for a non-empty separator (the callers guard the
empty case with `if separator:`). -/
def pySplit (s sep : String) : List String :=
  if sep.data.isEmpty then [s]
  else (pySplitGo sep.data (s.data.length + 1) s.data []).map String.mk

/-- Split on a single character (used for path components). -/
def splitOnChar (sep : Char) (l : List Char) : List (List Char) :=
  l.foldr (fun c acc =>
    if c = sep then [] :: acc
    else match acc with
      | h :: t => (c :: h) :: t
      | [] => [[c]]) [[]]

/-- Leading-sign split shared by the numeric string parsers. -/
def signSplit (cs : List Char) : Int × List Char :=
  match cs with
  | '+' :: r => (1, r)
  | '-' :: r => (-1, r)
  | r => (1, r)

/-- Model of Python `float(str)` restricted to finite decimal literals:
optional surrounding whitespace, optional sign, digits with optional
fraction and optional exponent.  `inf`/`nan` spellings and underscore digit
grouping, which CPython also accepts, are outside the model (no claim
exercises them).  The result is the exact rational the literal denotes;
all values the claims exercise are exactly representable as doubles, so
exact rationals are a faithful stand-in for CPython's binary floats. -/
def pyFloatOfString? (s : String) : Option Rat :=
  let t := (pyStrip s).data
  let (sign, t) := signSplit t
  let (mant, expPart) := t.span (fun c => !(c == 'e' || c == 'E'))
  let expOk : Option Int :=
    match expPart with
    | [] => some 0
    | _ :: ecs =>
      let (esign, eds) := signSplit ecs
      if eds ≠ [] ∧ eds.all Char.isDigit then some (esign * digitsVal eds) else none
  let (ip, dotPart) := mant.span (fun c => !(c == '.'))
  let fp := match dotPart with
    | [] => []
    | _ :: r => r
  match expOk with
  | none => none
  | some e =>
    if ip.all Char.isDigit ∧ fp.all Char.isDigit ∧ (ip ≠ [] ∨ fp ≠ []) then
      -- the literal's exact value sign·m·10^(e - |fp|), assembled through
      -- `mkRat` so the result normalizes by kernel reduction
      let m := sign * (digitsVal (ip ++ fp) : Int)
      let d := e - (fp.length : Int)
      some (if 0 ≤ d then mkRat (m * ((10 : Nat) ^ d.toNat : Int)) 1
            else mkRat m ((10 : Nat) ^ (-d).toNat))
    else none

/-- Model of Python `int(str)`: optional whitespace, optional sign, a
non-empty digit run (underscore grouping unmodelled). -/
def pyIntOfString? (s : String) : Option Int :=
  let t := (pyStrip s).data
  let (sign, t) := signSplit t
  if t ≠ [] ∧ t.all Char.isDigit then some (sign * digitsVal t) else none

/-- Model of Python `str()`/`repr()` on a float: exact for integral values
and for values with a short finite decimal expansion (every value the
claims exercise); other rationals fall back to a fraction rendering. -/
def pyFloatRepr (q : Rat) : String :=
  match (List.range 18).find? (fun k => (10 : Nat) ^ k % q.den == 0) with
  | some k =>
    let mag := q.num.natAbs * ((10 : Nat) ^ k) / q.den
    let ds := toString mag
    let ds := if ds.length ≤ k then String.mk (List.replicate (k + 1 - ds.length) '0') ++ ds else ds
    let ipart := String.mk (ds.data.take (ds.data.length - k))
    let fpart := String.mk (ds.data.drop (ds.data.length - k))
    (if q.num < 0 then "-" else "") ++ ipart ++ (if k = 0 then ".0" else "." ++ fpart)
  | none => toString q.num ++ "/" ++ toString q.den

mutual
/-- Python `str(value)` (f-string interpolation).  String escaping inside
`repr` of containers is not reproduced (no claim inspects it). -/
def pyStr : Value → String
  | .vStr s => s
  | v => pyRepr v

/-- Python `repr(value)`, used for elements of containers. -/
def pyRepr : Value → String
  | .vStr s => "'" ++ s ++ "'"
  | .vInt n => toString n
  | .vFloat q => pyFloatRepr q
  | .vBool b => if b then "True" else "False"
  | .vNone => "None"
  | .vList l => "[" ++ String.intercalate ", " (pyReprList l) ++ "]"
  | .vDict kvs => "\x7b" ++ String.intercalate ", " (pyReprKVs kvs) ++ "\x7d"

def pyReprList : List Value → List String
  | [] => []
  | v :: t => pyRepr v :: pyReprList t

def pyReprKVs : List (String × Value) → List String
  | [] => []
  | (k, v) :: t => ("'" ++ k ++ "': " ++ pyRepr v) :: pyReprKVs t
end

/-- Python `type(value).__name__` for the embedded value forms. -/
def pyTypeName : Value → String
  | .vStr _ => "str"
  | .vInt _ => "int"
  | .vFloat _ => "float"
  | .vBool _ => "bool"
  | .vNone => "NoneType"
  | .vList _ => "list"
  | .vDict _ => "dict"

/-- Python `int(value)`: identity on ints, `True`/`False` as 1/0, floats
truncated toward zero, strings parsed; `None`, lists and dicts raise
(`none` here). -/
def pyInt? : Value → Option Int
  | .vInt n => some n
  | .vBool b => some (if b then 1 else 0)
  | .vFloat q => some (q.num.tdiv (q.den : Int))
  | .vStr s => pyIntOfString? s
  | _ => none

/-- Python `float(value)`: floats pass through, ints and bools widen,
strings parse; `None`, lists and dicts raise (`none` here). -/
def pyFloat? : Value → Option Rat
  | .vFloat q => some q
  | .vInt n => some (n : Rat)
  | .vBool b => some (if b then 1 else 0)
  | .vStr s => pyFloatOfString? s
  | _ => none

mutual
/-- Python `==` on the embedded values: numbers (`int`, `float`, `bool`)
compare by numeric value across kinds, strings by content, containers
element-wise.  Dict `==` is modelled order-sensitively, which coincides
with CPython whenever both dicts were built in the same key order (the
only way the logic layer compares dicts). -/
def pyEq : Value → Value → Bool
  | .vInt a, .vInt b => a == b
  | .vInt a, .vFloat q => (a : Rat) == q
  | .vInt a, .vBool b => a == (if b then (1 : Int) else 0)
  | .vFloat q, .vInt b => q == (b : Rat)
  | .vFloat a, .vFloat b => a == b
  | .vFloat q, .vBool b => q == (if b then (1 : Rat) else 0)
  | .vBool a, .vInt b => (if a then (1 : Int) else 0) == b
  | .vBool a, .vFloat q => (if a then (1 : Rat) else 0) == q
  | .vBool a, .vBool b => a == b
  | .vStr a, .vStr b => a == b
  | .vNone, .vNone => true
  | .vList a, .vList b => pyEqList a b
  | .vDict a, .vDict b => pyEqKVs a b
  | _, _ => false

def pyEqList : List Value → List Value → Bool
  | [], [] => true
  | a :: as', b :: bs' => pyEq a b && pyEqList as' bs'
  | _, _ => false

def pyEqKVs : List (String × Value) → List (String × Value) → Bool
  | [], [] => true
  | (ka, va) :: as', (kb, vb) :: bs' => ka == kb && pyEq va vb && pyEqKVs as' bs'
  | _, _ => false
end

/-! ### Permission engine (`src/logic/permissions.py`) -/

/-- A capability grant as found under `permissions` in a library config:
Python `True`, `False`, a field-name list, or absent (`perms.get` → `None`). -/
inductive PermVal where
  | pTrue : PermVal
  | pFalse : PermVal
  | pList : List String → PermVal
  | pNone : PermVal
deriving DecidableEq, Repr

/-- Python truthiness of a grant (`if not write_perm`): `True` and a
non-empty list are truthy. -/
def PermVal.truthy : PermVal → Bool
  | .pTrue => true
  | .pList l => !l.isEmpty
  | _ => false

/-- The grants a library config carries (only the ones the claims touch). -/
structure Perms where
  read : PermVal := .pNone
  write : PermVal := .pNone
deriving DecidableEq, Repr

/-- A library config entry as returned by `config_manager.get_library_config`:
`lib_conf.get("name", "default")` and `lib_conf.get("permissions", {})` are
the only accesses the embedded functions make. -/
structure LibConf where
  name : Option String := none
  permissions : Perms := {}
deriving DecidableEq, Repr

/-- `lib_conf.get("name", "default")`. -/
def LibConf.displayName (lc : LibConf) : String := lc.name.getD "default"

/-- The exception types the logic layer raises. -/
inductive PyErr where
  | valueError : String → PyErr
  | permissionError : String → PyErr
  | runtimeError : String → PyErr
  | typeError : String → PyErr
  | attributeError : String → PyErr
deriving DecidableEq, Repr

/-- Rendering of a string set the way CPython f-strings print a `set[str]`
built by iterating a list in order (`\x7b'a', 'b'\x7d`).  CPython set
iteration order is hash-dependent; the embedding fixes first-occurrence
order, which only affects the text of error messages, never control flow. -/
def strSetRepr (l : List String) : String :=
  "\x7b" ++ String.intercalate ", " (l.dedup.map (fun s => "'" ++ s ++ "'")) ++ "\x7d"

/-- `check_write_permission(lib_conf, changes_keys)` from
`src/logic/permissions.py` lines 19-50: denies outright when the write
grant is falsy; when the grant is a field list and keys were supplied,
denies naming the keys outside the list. -/
def check_write_permission (lc : LibConf) (changesKeys : Option (List String)) :
    Except PyErr PermVal :=
  let writePerm := lc.permissions.write
  let libName := lc.displayName
  if !writePerm.truthy then
    .error (.permissionError ("Write access denied for library '" ++ libName ++ "'."))
  else
    match writePerm, changesKeys with
    | .pList allowed, some keys =>
      let deniedFields := keys.filter (fun k => !allowed.contains k)
      if !deniedFields.isEmpty then
        .error (.permissionError
          ("Write access denied for fields: " ++ strSetRepr deniedFields ++
           " in library '" ++ libName ++ "'. Allowed: " ++ strSetRepr allowed))
      else .ok writePerm
    | _, _ => .ok writePerm

/-- `check_read_permission(lib_conf, field_name)` from
`src/logic/permissions.py` lines 81-101. -/
def check_read_permission (lc : LibConf) (fieldName : Option String) :
    Except PyErr PermVal :=
  let readPerm := lc.permissions.read
  let libName := lc.displayName
  match readPerm with
  | .pList allowed =>
    match fieldName with
    | some f =>
      if !allowed.contains f then
        .error (.permissionError
          ("Read access denied for field '" ++ f ++ "' in library '" ++ libName ++ "'."))
      else .ok readPerm
    | none => .ok readPerm
  | _ =>
    if !readPerm.truthy then
      .error (.permissionError ("Read access denied for library '" ++ libName ++ "'."))
    else .ok readPerm

/-! ### Path guard (`validate_path_in_allowed`, `src/logic/permissions.py`)

The embedding fixes the POSIX branch of the code (`os.name != 'nt'`, so no
case folding and `os.sep = '/'`).  `os.path.abspath` is pure string
processing given the current working directory, which enters as the `cwd`
parameter. -/

/-- CPython `posixpath.normpath`. -/
def posixNormpath (p : String) : String :=
  if p = "" then "." else
  let initialSlashes : Nat :=
    if pyStartsWith p "/" then
      if pyStartsWith p "//" ∧ ¬ pyStartsWith p "///" then 2 else 1
    else 0
  let comps := (splitOnChar '/' p.data).map String.mk
  let newComps := comps.foldl (fun acc comp =>
    if comp = "" ∨ comp = "." then acc
    else if comp ≠ ".." ∨ (initialSlashes = 0 ∧ acc = []) ∨ acc.getLast? = some ".." then
      acc ++ [comp]
    else if acc ≠ [] then acc.dropLast
    else acc) []
  let joined := String.mk (List.replicate initialSlashes '/') ++ String.intercalate "/" newComps
  if joined = "" then "." else joined

/-- CPython `posixpath.join(cwd, p)` restricted to the two-argument call
`abspath` makes. -/
def posixJoin (cwd p : String) : String :=
  if pyStartsWith p "/" then p
  else if cwd = "" ∨ cwd.data.getLast? = some '/' then cwd ++ p
  else cwd ++ "/" ++ p

/-- CPython `posixpath.abspath(p)` with explicit working directory. -/
def posixAbspath (cwd p : String) : String :=
  posixNormpath (if pyStartsWith p "/" then p else posixJoin cwd p)

/-- The per-root acceptance test of `validate_path_in_allowed`
(`src/logic/permissions.py` lines 120-125): prefix match that must end at
the end of the candidate or at a path separator (the code checks both
`os.sep` and `'/'`; on POSIX they coincide). -/
def pathBoundaryMatch (checkPath allowedCheck : String) : Bool :=
  allowedCheck.data.isPrefixOf checkPath.data &&
  (checkPath.data.length == allowedCheck.data.length ||
   checkPath.data.getD allowedCheck.data.length ' ' == '/')

/-- `validate_path_in_allowed(file_path, allowed_paths, operation_name)` from
`src/logic/permissions.py` lines 104-129, POSIX branch: resolve everything
to absolute form, accept on the first allowed root that matches at a path
boundary, otherwise raise `PermissionError` naming the path. -/
def validate_path_in_allowed (cwd filePath : String) (allowedPaths : List String)
    (operationName : String := "Operation") : Except PyErr String :=
  let absFilePath := posixAbspath cwd filePath
  let checkPath := absFilePath
  match allowedPaths.find? (fun path => pathBoundaryMatch checkPath (posixAbspath cwd path)) with
  | some _ => .ok absFilePath
  | none => .error (.permissionError
      (operationName ++ " denied. Path '" ++ filePath ++ "' is not in allowed_paths."))

/-! ### Metadata validator (`src/logic/metadata_ops.py`) -/

/-- One entry of the per-library field schema as the backend returns it:
`field_schema.get("datatype")`, `.get("separator")`,
`.get("allowed_values", [])` are the only accesses made. -/
structure FieldSchema where
  datatype : Option String := none
  separator : Option String := none
  allowedValues : List Value := []
deriving Repr

/-- Python `str.rstrip()` on a character list. -/
def rstripChars (cs : List Char) : List Char :=
  (cs.reverse.dropWhile Char.isWhitespace).reverse

/-- `_normalize_series_field(series_input)` from `src/logic/metadata_ops.py`
lines 41-78.  The regex `^(.*?)\s*\[([^\]]+)\]$` is resolved by hand under
the already-established invariant that the string contains exactly one `[`
and one `]`: it matches iff the `]` is the final character, the index part
between the brackets is non-empty, and the name part (the prefix before
`[` with its trailing whitespace removed, which is what the non-greedy
group followed by `\s*` captures) contains no newline (`.` does not match
newlines).  `group(1).rstrip()` is that same rstripped prefix.  The
post-match "content after closing bracket" re-check of lines 67-69 is
subsumed by the `\]$` anchor and therefore unreachable. -/
def _normalize_series_field (seriesInput : String) : Except String (String × Option Rat) :=
  let si := pyStrip seriesInput
  let cs := si.data
  if ¬ cs.contains '[' ∧ ¬ cs.contains ']' then .ok (si, none)
  else if cs.count '[' ≠ 1 ∨ cs.count ']' ≠ 1 then
    .error ("Invalid series format: multiple bracket pairs found in '" ++ si ++ "'")
  else
    let i := cs.findIdx (· == '[')
    let j := cs.findIdx (· == ']')
    let namePart := rstripChars (cs.take i)
    if j ≠ cs.length - 1 ∨ j < i + 2 ∨ namePart.contains '\n' then
      .error ("Invalid series format: brackets must be at the end in '" ++ si ++ "'")
    else
      let idxStr := String.mk ((cs.drop (i + 1)).take (j - i - 1))
      match pyFloatOfString? idxStr with
      | none => .error ("Invalid series index: '" ++ idxStr ++ "' is not a valid number in '" ++ si ++ "'")
      | some q => .ok (String.mk namePart, some q)

/-- Rendering of the schema `datatype` value inside the unknown-datatype
message (`str(None)` when the key is missing). -/
def datatypeStr : Option String → String
  | some d => d
  | none => "None"

/-- The `datatype == "series"` arm of the validation loop
(`src/logic/metadata_ops.py` lines 121-142), on the stringified value:
parse the bracket notation, then reconcile with a sibling `<field>_index`
entry of the change set — a parse failure or a numerically different
sibling index is an error, an absent sibling writes the derived index, and
an unparsable sibling is silently ignored (`except ...: pass`). -/
def validateSeriesField (changes : List (String × Value)) (fieldName vs : String) :
    List (String × Value) × List String :=
  match _normalize_series_field vs with
  | .error e => ([], ["Field '" ++ fieldName ++ "' (series): " ++ e])
  | .ok (sName, sIdx) =>
    let base := [(fieldName, Value.vStr sName)]
    match sIdx with
    | none => (base, [])
    | some q =>
      let indexField := fieldName ++ "_index"
      match alistGet? changes indexField with
      | some iv =>
        match pyFloat? iv with
        | some pq =>
          if pq ≠ q then
            (base, ["Field '" ++ fieldName ++ "': series string '" ++ vs ++
                    "' implies index " ++ pyFloatRepr q ++ ", but '" ++ indexField ++
                    "' is also provided with a different value of " ++ pyFloatRepr pq ++ "."])
          else (base, [])
        | none => (base, [])
      | none => (base ++ [(indexField, Value.vFloat q)], [])

/-- The body of the `for field_name, value in changes.items()` loop of
`_validate_and_normalize_changes` (`src/logic/metadata_ops.py` lines
93-214): the `(normalized, errors)` contributions of a single field.
`changes` is passed whole because the series case looks up the sibling
`<field>_index` key in the full change set.  The date parser of the
external `dateutil` collaborator enters as `parseDT` (its exception text,
which the code interpolates into the datetime error message, is not
modelled); the `isinstance(value, datetime)` arm cannot fire because JSON
deserialization never produces datetime objects.  The enclosing
`try/except` of lines 101/213 only catches exceptions none of the embedded
operations raise, so it has no counterpart. -/
def validateField (parseDT : String → Option String) (changes : List (String × Value))
    (schema : List (String × FieldSchema)) (fieldName : String) (value : Value) :
    List (String × Value) × List String :=
  match (schema.find? (fun kv => kv.1 = fieldName)).map (·.2) with
  | none => ([], ["Field '" ++ fieldName ++ "' does not exist in the library schema."])
  | some fs =>
    match fs.datatype with
    | some "text" =>
      if fieldName = "identifiers" then
        match value with
        | .vDict _ => ([(fieldName, value)], [])
        | _ => ([], ["Field '" ++ fieldName ++ "': expected dictionary, got " ++
                     pyTypeName value ++ "."])
      else
        match fs.separator with
        | some sep =>
          if sep ≠ "" then
            match value with
            | .vStr s =>
              ([(fieldName, .vList ((((pySplit s sep).map pyStrip).filter (· ≠ "")).map .vStr))], [])
            | .vList l =>
              ([(fieldName, .vList (((l.map (fun it => pyStrip (pyStr it))).filter (· ≠ "")).map .vStr))], [])
            | _ => ([], ["Field '" ++ fieldName ++ "' (text with separator): expected string or list, got " ++ pyTypeName value ++ "."])
          else ([(fieldName, .vStr (pyStr value))], [])
        | none => ([(fieldName, .vStr (pyStr value))], [])
    | some "series" => validateSeriesField changes fieldName (pyStr value)
    | some "rating" =>
      match pyInt? value with
      | some r =>
        if r < 0 ∨ r > 10 then
          ([], ["Field '" ++ fieldName ++ "' (rating): value must be between 0 and 10, got " ++ toString r ++ "."])
        else ([(fieldName, .vInt r)], [])
      | none =>
        ([], ["Field '" ++ fieldName ++ "' (rating): expected integer 0-10, got " ++
              pyTypeName value ++ " '" ++ pyStr value ++ "'."])
    | some "datetime" =>
      match value with
      | .vStr s =>
        match parseDT s with
        | some iso => ([(fieldName, .vStr iso)], [])
        | none => ([], ["Field '" ++ fieldName ++ "' (datetime): unable to parse '" ++ s ++ "' as a date/time."])
      | _ => ([], ["Field '" ++ fieldName ++ "' (datetime): expected string or datetime object, got " ++ pyTypeName value ++ "."])
    | some "int" =>
      match pyInt? value with
      | some n => ([(fieldName, .vInt n)], [])
      | none => ([], ["Field '" ++ fieldName ++ "' (int): expected integer, got " ++
                      pyTypeName value ++ " '" ++ pyStr value ++ "'."])
    | some "float" =>
      match pyFloat? value with
      | some q => ([(fieldName, .vFloat q)], [])
      | none => ([], ["Field '" ++ fieldName ++ "' (float): expected number, got " ++
                      pyTypeName value ++ " '" ++ pyStr value ++ "'."])
    | some "composite" =>
      ([], ["Field '" ++ fieldName ++ "' is a composite field and cannot be written to."])
    | some "enumeration" =>
      if pyEq value (.vStr "") ∨ fs.allowedValues.any (fun av => pyEq value av) then
        ([(fieldName, value)], [])
      else
        ([], ["Field '" ++ fieldName ++ "' (enumeration): value '" ++ pyStr value ++
              "' not in allowed values " ++ pyRepr (.vList fs.allowedValues) ++
              ". Empty string is also allowed."])
    | some "comments" => ([(fieldName, .vStr (pyStr value))], [])
    | some "bool" =>
      match value with
      | .vBool _ => ([(fieldName, value)], [])
      | .vNone => ([(fieldName, .vNone)], [])
      | .vStr s =>
        let lv := pyStrip (pyLower s)
        if lv = "true" ∨ lv = "yes" ∨ lv = "1" then ([(fieldName, .vBool true)], [])
        else if lv = "false" ∨ lv = "no" ∨ lv = "0" then ([(fieldName, .vBool false)], [])
        else if lv = "none" ∨ lv = "null" ∨ lv = "" then ([(fieldName, .vNone)], [])
        else ([], ["Field '" ++ fieldName ++ "' (bool): unable to convert string '" ++ s ++
                   "' to boolean. Use 'true', 'false', or 'none'."])
      | _ => ([], ["Field '" ++ fieldName ++ "' (bool): expected boolean, None, or string, got " ++ pyTypeName value ++ "."])
    | _ =>
      ([(fieldName, value)],
       ["Field '" ++ fieldName ++ "': unknown datatype '" ++ datatypeStr fs.datatype ++
        "', passing value through without validation."])

/-- `_validate_and_normalize_changes(changes, schema)` from
`src/logic/metadata_ops.py` lines 81-217: fold the per-field loop body
over the change set in dict (insertion) order, accumulating normalized
entries and error messages. -/
def _validate_and_normalize_changes (parseDT : String → Option String)
    (changes : List (String × Value)) (schema : List (String × FieldSchema)) :
    List (String × Value) × List String :=
  changes.foldl (fun acc fv =>
    let r := validateField parseDT changes schema fv.1 fv.2
    (acc.1 ++ r.1, acc.2 ++ r.2)) ([], [])

/-! ### Schema cache and the update/details/field-value operations -/

/-- A library field schema as a mapping field name → schema entry. -/
abbrev Schema := List (String × FieldSchema)

/-- The process-wide `_library_schemata` cache, keyed — exactly as in the
code — by the raw `library_name` argument (which may be `None`). -/
abbrev SchemaCache := List (Option String × Schema)

/-- The columns a grant contributes to `allowed_cols`
(`isinstance(perm, list) and perm`): a non-empty field list contributes its
fields, everything else nothing.  An empty list contributes nothing either
way, so membership in the union is simply membership in either list. -/
def permContrib : PermVal → List String
  | .pList l => if l.isEmpty then [] else l
  | _ => []

/-- `_get_library_schema_impl(worker_pool, config_manager, library_name)`
from `src/logic/metadata_ops.py` lines 12-38.  The backend's
`get_library_schema` RPC result enters as `backendSchema`; the returned
`List String` is the trace of RPC method names dispatched by the call, and
the returned cache is the updated `_library_schemata`.  When the schema is
already cached the RPC is skipped entirely. -/
def _get_library_schema_impl (cache : SchemaCache) (conf : Option LibConf)
    (libraryName : Option String) (backendSchema : Schema) :
    Schema × List String × SchemaCache :=
  match (cache.find? (fun kv => kv.1 = libraryName)).map (·.2) with
  | some cached => (cached, [], cache)
  | none =>
    let schema := backendSchema
    let rpcTrace := ["get_library_schema"]
    match conf with
    | some lc =>
      if lc.permissions.read ≠ .pTrue ∧ lc.permissions.write ≠ .pTrue then
        let allowedCols := permContrib lc.permissions.read ++ permContrib lc.permissions.write
        let filtered := schema.filter (fun kv => allowedCols.contains kv.1)
        (filtered, rpcTrace, cache ++ [(libraryName, filtered)])
      else (schema, rpcTrace, cache ++ [(libraryName, schema)])
    | none => (schema, rpcTrace, cache ++ [(libraryName, schema)])

/-- Rendering of an `Option String` library selector inside error messages
(`str(None)` for the default-library case). -/
def libNameStr : Option String → String
  | some s => s
  | none => "None"

/-- Outcome of an `update_book` call: the raised-or-returned result, the
trace of backend RPC method names dispatched (in order), and the schema
cache afterwards. -/
structure UpdateOutcome where
  result : Except PyErr Value
  rpcTrace : List String
  cache : SchemaCache

/-- `_update_book_impl(worker_pool, config_manager, book_id, changes,
library_name)` from `src/logic/metadata_ops.py` lines 220-235:
`get_lib_conf` (ValueError on unknown library), `check_write_permission`,
schema fetch through the cache, validation, and — only when validation
produced no errors — the `update_book` RPC, whose backend result enters as
`updateResult`. -/
def _update_book_impl (cache : SchemaCache) (conf : Option LibConf)
    (libraryName : Option String) (backendSchema : Schema)
    (parseDT : String → Option String) (updateResult : Value)
    (changes : List (String × Value)) : UpdateOutcome :=
  match conf with
  | none =>
    ⟨.error (.valueError ("Library '" ++ libNameStr libraryName ++ "' not found.")), [], cache⟩
  | some lc =>
    match check_write_permission lc (some (changes.map (·.1))) with
    | .error e => ⟨.error e, [], cache⟩
    | .ok _ =>
      let (schema, tr, cache') := _get_library_schema_impl cache (some lc) libraryName backendSchema
      let v := _validate_and_normalize_changes parseDT changes schema
      if v.2 ≠ [] then
        ⟨.error (.valueError ("Validation errors occurred:\n" ++
            String.intercalate "\n" (v.2.map (fun e => "  - " ++ e)))), tr, cache'⟩
      else
        ⟨.ok updateResult, tr ++ ["update_book"], cache'⟩

/-- `_get_book_details_impl` from `src/logic/__init__.py` lines 46-61: the
backend record enters as `details`; when the library's read grant is a
field list, only the listed fields plus `book_id` survive. -/
def _get_book_details_impl (conf : Option LibConf) (details : List (String × Value)) :
    List (String × Value) :=
  match conf with
  | some lc =>
    match lc.permissions.read with
    | .pList allowed => details.filter (fun kv => allowed.contains kv.1 || kv.1 == "book_id")
    | _ => details
  | none => details

/-- The response shape of `_get_field_values_impl`. -/
structure FieldValuesResult where
  fieldName : String
  totalResults : Nat
  offset : Nat
  limit : Nat
  results : List (String × Int)
deriving DecidableEq, Repr

/-- The sort key comparison of `items.sort(key=lambda x: (-x["count"],
x["value"].lower()))`: tuple order, i.e. descending count, then
case-insensitively ascending value. -/
def fieldValueLe (a b : String × Int) : Bool :=
  decide (b.2 < a.2) || (a.2 == b.2 && decide (pyLower a.1 ≤ pyLower b.1))

/-- The result assembly of `_get_field_values_impl`
(`src/logic/metadata_ops.py` lines 291-309), from the
`get_field_value_counts` backend mapping onwards: build `(value, count)`
items in dict order, stable-sort by the key above (CPython `list.sort` and
`List.mergeSort` are both stable), slice `[offset : offset + limit]`, and
report the pre-pagination length as `total_results`.  The preceding
argument/permission checks and the RPC itself dispatch unconditionally and
do not affect this shape; slice arguments are modelled as naturals (the
negative-index slicing of Python is out of scope). -/
def _get_field_values_impl (fieldName : String) (counts : List (String × Int))
    (limit offset : Nat) : FieldValuesResult :=
  let items := counts.mergeSort fieldValueLe
  let totalCount := items.length
  let pagedItems := (items.drop offset).take limit
  ⟨fieldName, totalCount, offset, limit, pagedItems⟩

/-! ### Proximity search engine (`src/logic/text_search.py`)

The Porter stemmer is the external `nltk` collaborator and enters as the
`stem` parameter.  Python's `\w` is modelled over ASCII word characters
(letters, digits, underscore); the unicode word classes CPython adds are
outside the model and unexercised by the claims.  Text positions are
code-point indices, which is exactly what CPython string indices are. -/

/-- `\w` membership (ASCII fragment). -/
def isWordChar (c : Char) : Bool := c.isAlphanum || c == '_'

/-- Worker for `wordTokens`: remaining characters, current position, start
of the in-progress token and its characters (reversed). -/
def wordTokensGo : List Char → Nat → Nat → List Char → List (Nat × Nat × String)
  | [], pos, runStart, run =>
    if run.isEmpty then [] else [(runStart, pos, String.mk run.reverse)]
  | c :: t, pos, runStart, run =>
    if isWordChar c then
      wordTokensGo t (pos + 1) (if run.isEmpty then pos else runStart) (c :: run)
    else
      (if run.isEmpty then [] else [(runStart, pos, String.mk run.reverse)]) ++
        wordTokensGo t (pos + 1) 0 []

/-- `re.finditer(r'\w+', text)` with `(match.start(), match.end(),
match.group())` for every maximal word-character run. -/
def wordTokens (s : String) : List (Nat × Nat × String) := wordTokensGo s.data 0 0 []

/-- `query_stems = list(set(stemmer.stem(w) for w in re.findall(r'\w+',
query.lower())))`: the stems of the lowered query's words, deduplicated
(the CPython `set` iteration order is irrelevant downstream — only
membership and the count of distinct stems are used). -/
def queryStems (stem : String → String) (query : String) : List String :=
  (((wordTokens (pyLower query)).map (fun t => t.2.2)).map stem).dedup

/-- One candidate hit of the matcher (lines 15-23 of
`src/logic/text_search.py`): token start, token end, matched stem. -/
structure Cand where
  start : Nat
  stop : Nat
  stem : String
deriving DecidableEq, Repr

/-- The candidate extraction loop: every text token whose lowered stem is a
query stem, in text order, tagged with that stem. -/
def candidateHits (stem : String → String) (text : String) (qstems : List String) :
    List Cand :=
  (wordTokens text).filterMap (fun t =>
    let st := stem (pyLower t.2.2)
    if qstems.contains st then some ⟨t.1, t.2.1, st⟩ else none)

/-- The inner `while unique_stems_in_window == num_terms` loop (lines 39-53):
record the current span when it fits the character budget, then drop the
leftmost candidate, until some query stem leaves the window.  `window` is
the candidate slice `candidates[left : right + 1]` held explicitly;
`rightEnd` is `candidates[right]['end']`.  The loop body always advances
`left`, and once the window is empty every count is zero, so with a
non-empty query the Python condition fails there; the `[]` arm is that
exit point. -/
def shrinkLoop (numTerms rightEnd windowSize : Nat) :
    List Cand → (String → Nat) → Nat → List (Nat × Nat) →
    List Cand × (String → Nat) × Nat × List (Nat × Nat)
  | [], counts, uniq, results => ([], counts, uniq, results)
  | cand :: rest, counts, uniq, results =>
    if uniq = numTerms then
      let results' := if rightEnd - cand.start ≤ windowSize then
          results ++ [(cand.start, rightEnd)] else results
      let counts' := fun s => if s = cand.stem then counts cand.stem - 1 else counts s
      let uniq' := if counts' cand.stem = 0 then uniq - 1 else uniq
      shrinkLoop numTerms rightEnd windowSize rest counts' uniq' results'
    else (cand :: rest, counts, uniq, results)

/-- Sliding-window state: current window slice, per-stem occurrence counts,
number of distinct query stems present, recorded spans. -/
structure SWState where
  window : List Cand
  counts : String → Nat
  uniq : Nat
  results : List (Nat × Nat)

/-- One iteration of the outer `for right in range(len(candidates))` loop
(lines 31-53): admit the next candidate on the right, then shrink from the
left while the window still covers every query stem. -/
def slideStep (numTerms windowSize : Nat) (st : SWState) (cand : Cand) : SWState :=
  let counts' := fun s => if s = cand.stem then st.counts cand.stem + 1 else st.counts s
  let uniq' := if st.counts cand.stem = 0 then st.uniq + 1 else st.uniq
  let (w, c, u, r) :=
    shrinkLoop numTerms cand.stop windowSize (st.window ++ [cand]) counts' uniq' st.results
  ⟨w, c, u, r⟩

/-- The spans the sliding-window phase records, in recording order. -/
def slidingWindowResults (numTerms windowSize : Nat) (cands : List Cand) : List (Nat × Nat) :=
  (cands.foldl (slideStep numTerms windowSize) ⟨[], fun _ => 0, 0, []⟩).results

/-- Python tuple comparison on spans, as used by `results.sort()`. -/
def spanLe (a b : Nat × Nat) : Bool :=
  decide (a.1 < b.1) || (a.1 == b.1 && decide (a.2 ≤ b.2))

/-- The merge pass (lines 60-68): fold the sorted spans, extending the last
accumulated span whenever the next one starts at or before its end. -/
def mergeAdjacent : (Nat × Nat) → List (Nat × Nat) → List (Nat × Nat)
  | last, [] => [last]
  | last, (cs, ce) :: t =>
    if cs ≤ last.2 then mergeAdjacent (last.1, max last.2 ce) t
    else last :: mergeAdjacent (cs, ce) t

/-- `_find_fts_matches(text, query, window_size=500)` from
`src/logic/text_search.py`: candidate extraction, sliding window, then
sort-and-merge; an empty span list short-circuits to `[]`. -/
def _find_fts_matches (stem : String → String) (text query : String)
    (windowSize : Nat := 500) : List (Nat × Nat) :=
  let qstems := queryStems stem query
  let cands := candidateHits stem text qstems
  let results := slidingWindowResults qstems.length windowSize cands
  match results.mergeSort spanLe with
  | [] => []
  | r :: rest => mergeAdjacent r rest

/-! ### Search result cache (`src/logic/__init__.py` lines 114-207)

Timestamps from `datetime.now().timestamp()` are modelled as integer
ticks; the code only compares them and takes differences. -/

def MAX_CACHE_SIZE : Nat := 50

def CACHE_TTL_SECONDS : Int := 30 * 60

/-- Cache key: `(library_name, book_id, query)`. -/
abbrev CacheKey := Option String × Int × String

/-- Cache value: `{'timestamp': ..., 'results': ...}`; the result records
are opaque to the cache policy. -/
structure CacheEntry where
  timestamp : Int
  results : List Value

/-- `_purge_search_cache()` (lines 120-129): drop every entry whose age
exceeds the TTL. -/
def _purge_search_cache (now : Int) (cache : List (CacheKey × CacheEntry)) :
    List (CacheKey × CacheEntry) :=
  cache.filter (fun kv => !decide (now - kv.2.timestamp > CACHE_TTL_SECONDS))

/-- `sorted(SEARCH_CACHE.keys(), key=lambda k: SEARCH_CACHE[k]["timestamp"])[0]`
(lines 183-185).  CPython's sort is stable, so the head of the sorted key
list is the earliest-inserted key among those of minimal timestamp — which
is what this keep-first minimum fold computes. -/
def oldestCacheKey (cache : List (CacheKey × CacheEntry)) : Option CacheKey :=
  match cache with
  | [] => none
  | x :: t =>
    some ((t.foldl (fun best kv =>
      if kv.2.timestamp < best.2.timestamp then kv else best) x).1)

/-- The cache-hit refresh `cached_data["timestamp"] = datetime.now().timestamp()`
(line 144): an in-place dict-value update, so the entry keeps its insertion
position. -/
def cacheTouch (cache : List (CacheKey × CacheEntry)) (key : CacheKey) (now : Int) :
    List (CacheKey × CacheEntry) :=
  cache.map (fun kv => if kv.1 = key then (kv.1, { kv.2 with timestamp := now }) else kv)

/-- The capacity check and insertion of lines 182-187: when the cache
already holds `MAX_CACHE_SIZE` entries, delete the globally
oldest-timestamped one, then insert the new entry (at the end — Python
dicts append new keys in insertion order). -/
def cacheInsertWithEviction (cache : List (CacheKey × CacheEntry)) (key : CacheKey)
    (entry : CacheEntry) : List (CacheKey × CacheEntry) :=
  let cache' :=
    if MAX_CACHE_SIZE ≤ cache.length then
      match oldestCacheKey cache with
      | some k => cache.eraseP (fun kv => decide (kv.1 = k))
      | none => cache
    else cache
  cache' ++ [(key, entry)]

/-- The complete effect of one `_search_book_content_impl` call on
`SEARCH_CACHE` (lines 139-207): touch on hit, evict-and-insert on miss
(with `freshResults` standing for the snippets computed from the matcher),
then the TTL purge that runs after every call. -/
def searchCacheStep (cache : List (CacheKey × CacheEntry)) (key : CacheKey)
    (now : Int) (freshResults : List Value) : List (CacheKey × CacheEntry) :=
  match cache.find? (fun kv => decide (kv.1 = key)) with
  | some _ => _purge_search_cache now (cacheTouch cache key now)
  | none => _purge_search_cache now (cacheInsertWithEviction cache key ⟨now, freshResults⟩)

/-! ### Worker pool transport (`src/worker_pool.py`)

`json.loads` is external and enters as the `loads` parameter (mapping a
line to the JSON-object value it parses to, `none` on `JSONDecodeError`).
The pool's process table `self.workers` is modelled by its key list; the
worker subprocess itself is abstracted to the stdout line script the pool
will read (list exhaustion = the stream closed) and the stderr sink
contents. -/

/-- The noise keywords both scans of `_extract_stderr_error` skip
(lines 135-136 and 150-152 use the same five). -/
def stderrNoiseKeywords : List String :=
  ["Warning:", "SyntaxWarning:", "DeprecationWarning:", "FutureWarning:", "--- Worker Started at"]

/-- Python `needle in hay` on strings: substring containment. -/
def containsSub (needle hay : String) : Bool :=
  hay.data.tails.any (fun t => needle.data.isPrefixOf t)

/-- `any(keyword in line for keyword in [...])` over the noise keywords. -/
def isNoiseLine (l : String) : Bool := stderrNoiseKeywords.any (fun kw => containsSub kw l)

/-- One step of the first scan of `_extract_stderr_error` (lines 129-144):
strip, skip blanks and noise, and yield `data['error']` when the line
parses as a JSON object carrying an `error` field. -/
def jsonErrorOf (loads : String → Option Value) (line : String) : Option Value :=
  let l := pyStrip line
  if l = "" then none
  else if isNoiseLine l then none
  else
    match loads l with
    | some (.vDict kvs) => alistGet? kvs "error"
    | _ => none

/-- The second-scan filter (lines 148-153): non-empty after stripping and
not a noise line. -/
def relevantLine (l : String) : Bool := pyStrip l ≠ "" && !isNoiseLine (pyStrip l)

/-- `lines[-50:] if len(lines) > 50 else lines` (line 125): the bounded
recent window of the diagnostic sink both scans operate on. -/
def stderrWindow (stderrLines : List String) : List String :=
  if stderrLines.length > 50 then stderrLines.drop (stderrLines.length - 50) else stderrLines

/-- `_extract_stderr_error(library_name)` from `src/worker_pool.py` lines
111-159, applied to the stderr sink contents: scan the last 50 lines from
the end, prefer the most recent JSON-object line with an `error` field,
fall back to the most recent relevant line (stripped), else nothing. -/
def _extract_stderr_error (loads : String → Option Value) (stderrLines : List String) :
    Option Value :=
  match (stderrWindow stderrLines).reverse.findSome? (jsonErrorOf loads) with
  | some e => some e
  | none => ((stderrWindow stderrLines).reverse.find? relevantLine).map (fun l => .vStr (pyStrip l))

/-- Python truthiness of a value (`if stderr_error:`): empty string, zero,
`False`, `None` and empty containers are falsy. -/
def Value.truthy : Value → Bool
  | .vStr s => s ≠ ""
  | .vInt n => n ≠ 0
  | .vFloat q => q ≠ 0
  | .vBool b => b
  | .vNone => false
  | .vList l => !l.isEmpty
  | .vDict kvs => !kvs.isEmpty

/-- Python `"jsonrpc" in response` / `"error" in response` on an arbitrary
JSON value: key membership for objects, element membership for arrays,
substring for strings, `TypeError` (`none`) for the remaining scalars. -/
def pyContainsStr (needle : String) : Value → Option Bool
  | .vDict kvs => some (alistHasKey kvs needle)
  | .vList l => some (l.any (fun v => pyEq (.vStr needle) v))
  | .vStr s => some (containsSub needle s)
  | _ => none

/-- Outcome of the read phase of `send_rpc`: the call's result (errors are
the exceptions the code raises) and the pool's process-table keys
afterwards. -/
structure RpcReadOutcome where
  result : Except PyErr (Option Value)
  workers : List String

/-- The response-reading loop of `send_rpc` (`src/worker_pool.py` lines
183-219), after the request was written: read lines until one parses as
JSON carrying the `jsonrpc` marker, discarding noise; on end-of-stream
remove the worker from the process table and raise `RuntimeError`,
enriched from the stderr sink only when the extraction produced a truthy
value — line 194's `if stderr_error:` tests Python truthiness, so both a
missing extraction and a falsy extracted `error` value (`""`, `null`, `0`,
`false`, `[]`, an empty object) raise the plain message; surface an
`error` envelope as `RuntimeError`.  A response that parses to JSON but is
not an object makes the untyped Python code raise
(`TypeError`/`AttributeError`, leaving the table untouched); those arms
mirror that.  The `finally` bookkeeping on `worker_stats` and the separate
`BrokenPipeError` path of the write phase are outside this loop. -/
def send_rpc_read_loop (loads : String → Option Value) (resolvedName : String)
    (stderrLines : List String) (workers : List String) :
    List String → RpcReadOutcome
  | [] =>
    let workers' := workers.erase resolvedName
    match _extract_stderr_error loads stderrLines with
    | some e =>
      if e.truthy then
        ⟨.error (.runtimeError ("Worker process terminated unexpectedly: " ++ pyStr e)), workers'⟩
      else ⟨.error (.runtimeError "Worker process terminated unexpectedly"), workers'⟩
    | none => ⟨.error (.runtimeError "Worker process terminated unexpectedly"), workers'⟩
  | line :: rest =>
    let stripped := pyStrip line
    if stripped = "" then send_rpc_read_loop loads resolvedName stderrLines workers rest
    else
      match loads stripped with
      | none => send_rpc_read_loop loads resolvedName stderrLines workers rest
      | some response =>
        match pyContainsStr "jsonrpc" response with
        | none => ⟨.error (.typeError "argument is not iterable"), workers⟩
        | some false => send_rpc_read_loop loads resolvedName stderrLines workers rest
        | some true =>
          match response with
          | .vDict kvs =>
            match alistGet? kvs "error" with
            | some errv =>
              let msg :=
                match errv with
                | .vDict ekvs =>
                  match alistGet? ekvs "message" with
                  | some m => some (pyStr m)
                  | none => some "Unknown error"
                | _ => none
              match msg with
              | some m => ⟨.error (.runtimeError ("Worker Error: " ++ m)), workers⟩
              | none => ⟨.error (.attributeError "'error' value has no attribute 'get'"), workers⟩
            | none => ⟨.ok (alistGet? kvs "result"), workers⟩
          | other =>
            match pyContainsStr "error" other with
            | some true => ⟨.error (.typeError "non-object response subscripted"), workers⟩
            | _ => ⟨.error (.attributeError "non-object response has no attribute get"), workers⟩

/-- A stdout line the read loop discards as diagnostic noise: blank after
stripping, unparsable as JSON, or JSON without the `jsonrpc` marker. -/
def rpcLineSkipped (loads : String → Option Value) (line : String) : Bool :=
  pyStrip line = "" ||
    match loads (pyStrip line) with
    | none => true
    | some v => pyContainsStr "jsonrpc" v == some false

/-! ### Shared concrete instances used by the theorems -/

/-- The ten datatype tags `_validate_and_normalize_changes` dispatches on. -/
def knownDatatypes : List String :=
  ["text", "series", "rating", "datetime", "int", "float", "composite", "enumeration",
   "comments", "bool"]

/-- The fields a grant exposes when it is a field list (and none otherwise).
`_get_library_schema_impl` additionally skips empty lists
(`isinstance(perm, list) and perm`), which exposes the same field set. -/
def grantFields : PermVal → List String
  | .pList l => l
  | _ => []

/-- A library config granting full read and write, used to instantiate
theorems about the write path. -/
def permissiveLibConf : LibConf :=
  { name := none, permissions := { read := .pTrue, write := .pTrue } }

/-- A schema fragment with the series fields of a Calibre library plus a
rating column, used by the concrete validation examples. -/
def seriesSchemaEx : Schema :=
  [("series", { datatype := some "series" }),
   ("series_index", { datatype := some "float" }),
   ("rating", { datatype := some "rating" })]

/-- A full cache of 50 entries whose first-inserted entry was refreshed to
timestamp 100 (a later read touched it) while entry `i = 1` still carries
the globally oldest timestamp 1: capacity eviction must pick entry 1, not
the least-recently-inserted entry 0. -/
def refreshedCacheEx : List (CacheKey × CacheEntry) :=
  (List.range 50).map (fun i =>
    ((none, (i : Int), "q"), ⟨if i = 0 then 100 else (i : Int), []⟩))

/-! ## Theorems -/

/-- The list-level form of the boundary test: it accepts exactly equality
with the allowed root or an extension of it across a `/`. -/
theorem boundaryAux (C A : List Char) :
    (A.isPrefixOf C && ((C.length == A.length) || (C.getD A.length ' ' == '/'))) = true ↔
    C = A ∨ ∃ rest, C = A ++ '/' :: rest := by
  simp only [Bool.and_eq_true, Bool.or_eq_true, beq_iff_eq, List.isPrefixOf_iff_prefix]
  constructor
  · rintro ⟨⟨t, rfl⟩, hor⟩
    rcases hor with hlen | hget
    · have ht : t = [] := by
        rw [List.length_append] at hlen
        have h0 : t.length = 0 := by omega
        exact List.length_eq_zero.mp h0
      subst ht
      exact Or.inl (by simp)
    · have hgetD : (A ++ t).getD A.length ' ' = t.getD 0 ' ' := by
        rw [List.getD_eq_getElem?_getD, List.getD_eq_getElem?_getD,
            List.getElem?_append_right (Nat.le_refl _)]
        simp
      rw [hgetD] at hget
      cases t with
      | nil => exact absurd hget (by decide)
      | cons x rest =>
        have hx : x = '/' := by simpa [List.getD] using hget
        exact Or.inr ⟨rest, by rw [hx]⟩
  · rintro (rfl | ⟨rest, rfl⟩)
    · exact ⟨List.prefix_rfl, Or.inl rfl⟩
    · refine ⟨List.prefix_append _ _, Or.inr ?_⟩
      rw [List.getD_eq_getElem?_getD, List.getElem?_append_right (Nat.le_refl _)]
      simp

/-- The boundary test at string level. -/
theorem pathBoundaryMatch_iff (c a : String) :
    pathBoundaryMatch c a = true ↔ c = a ∨ ∃ rest, c.data = a.data ++ '/' :: rest := by
  rw [show pathBoundaryMatch c a =
        (a.data.isPrefixOf c.data &&
          ((c.data.length == a.data.length) || (c.data.getD a.data.length ' ' == '/'))) from rfl,
      boundaryAux]
  constructor
  · rintro (heq | hex)
    · exact Or.inl (String.ext heq)
    · exact Or.inr hex
  · rintro (rfl | hex)
    · exact Or.inl rfl
    · exact Or.inr hex

/-- Unfolding equation for the path guard. -/
theorem validate_path_eq (cwd filePath : String) (allowedPaths : List String)
    (opName : String) :
    validate_path_in_allowed cwd filePath allowedPaths opName =
      match allowedPaths.find? (fun path =>
          pathBoundaryMatch (posixAbspath cwd filePath) (posixAbspath cwd path)) with
      | some _ => .ok (posixAbspath cwd filePath)
      | none => .error (.permissionError
          (opName ++ " denied. Path '" ++ filePath ++ "' is not in allowed_paths.")) := rfl

/-- Claim C5: `validate_path_in_allowed` resolves the candidate and every
allowed root to absolute form and accepts the candidate exactly when some
root matches at a real path-separator boundary — i.e. the resolved
candidate equals the resolved root or extends it right after a `/` —
raising `PermissionError` naming the offending path otherwise; in
particular `/data/exports/out.epub` is denied against `["/data/export"]`
and accepted against `["/data/exports"]`. -/
theorem claim5_validate_path_in_allowed :
    (∀ c a : String, pathBoundaryMatch c a = true ↔
       c = a ∨ ∃ rest, c.data = a.data ++ '/' :: rest) ∧
    (∀ cwd filePath allowedPaths opName,
       ((∃ p ∈ allowedPaths,
           pathBoundaryMatch (posixAbspath cwd filePath) (posixAbspath cwd p) = true) →
         validate_path_in_allowed cwd filePath allowedPaths opName =
           .ok (posixAbspath cwd filePath)) ∧
       ((∀ p ∈ allowedPaths,
           pathBoundaryMatch (posixAbspath cwd filePath) (posixAbspath cwd p) = false) →
         validate_path_in_allowed cwd filePath allowedPaths opName =
           .error (.permissionError
             (opName ++ " denied. Path '" ++ filePath ++ "' is not in allowed_paths.")))) ∧
    validate_path_in_allowed "/" "/data/exports/out.epub" ["/data/export"] "Export" =
      .error (.permissionError
        "Export denied. Path '/data/exports/out.epub' is not in allowed_paths.") ∧
    validate_path_in_allowed "/" "/data/exports/out.epub" ["/data/exports"] "Export" =
      .ok "/data/exports/out.epub" := by
  refine ⟨pathBoundaryMatch_iff, ?_, rfl, rfl⟩
  intro cwd filePath allowedPaths opName
  constructor
  · intro hexists
    rw [validate_path_eq]
    cases hfind : allowedPaths.find?
        (fun path => pathBoundaryMatch (posixAbspath cwd filePath) (posixAbspath cwd path)) with
    | none =>
      obtain ⟨p, hp, hmatch⟩ := hexists
      have := List.find?_eq_none.mp hfind p hp
      simp [hmatch] at this
    | some p => rfl
  · intro hall
    rw [validate_path_eq]
    have hfind : allowedPaths.find?
        (fun path => pathBoundaryMatch (posixAbspath cwd filePath) (posixAbspath cwd path)) = none :=
      List.find?_eq_none.mpr (fun p hp => by simp [hall p hp])
    rw [hfind]

/-- Witness for C5: the accepting root `"/data/exports"` satisfies the
boundary test, and the theorem's acceptance branch then yields the
resolved path. -/
theorem claim5_validate_path_in_allowed_witness :
    (∃ p ∈ ["/data/exports"],
       pathBoundaryMatch (posixAbspath "/" "/data/exports/out.epub") (posixAbspath "/" p) = true) ∧
    validate_path_in_allowed "/" "/data/exports/out.epub" ["/data/exports"] "Export" =
      .ok (posixAbspath "/" "/data/exports/out.epub") :=
  ⟨⟨"/data/exports", List.mem_singleton.mpr rfl, by decide⟩,
   (claim5_validate_path_in_allowed.2.1 "/" "/data/exports/out.epub" ["/data/exports"] "Export").1
     ⟨"/data/exports", List.mem_singleton.mpr rfl, by decide⟩⟩

/-- Claim C6: validating a series-datatype field parses an optional single
bracket suffix at the end of the string whose index must parse as a
floating-point number: `{"series": "Foo Bar [3]"}` yields
`series = "Foo Bar"` and `series_index = 3.0`; adding `"series_index": 4`
yields a conflict error (and only that error); `{"series": "Foo[1][2]"}`
(more than one bracket pair) is rejected with no normalized output for the
field. -/
theorem claim6_series_bracket_suffix :
    _validate_and_normalize_changes (fun _ => none)
        [("series", .vStr "Foo Bar [3]")] seriesSchemaEx =
      ([("series", .vStr "Foo Bar"), ("series_index", .vFloat 3)], []) ∧
    _validate_and_normalize_changes (fun _ => none)
        [("series", .vStr "Foo Bar [3]"), ("series_index", .vInt 4)] seriesSchemaEx =
      ([("series", .vStr "Foo Bar"), ("series_index", .vFloat 4)],
       ["Field 'series': series string 'Foo Bar [3]' implies index 3.0, but 'series_index' is also provided with a different value of 4.0."]) ∧
    _validate_and_normalize_changes (fun _ => none)
        [("series", .vStr "Foo[1][2]")] seriesSchemaEx =
      ([], ["Field 'series' (series): Invalid series format: multiple bracket pairs found in 'Foo[1][2]'"]) := by
  refine ⟨rfl, rfl, rfl⟩

/-- Claim C9: when a library's read grant is a field list, the record
`get_book_details` returns contains only the listed keys plus `book_id`
(every backend field outside that set is removed, every field inside it is
kept), while a boolean read grant (`True` or `False`) leaves the backend
record unfiltered. -/
theorem claim9_book_details_read_filter (lc : LibConf) (allowed : List String)
    (details : List (String × Value))
    (hread : lc.permissions.read = .pList allowed) :
    _get_book_details_impl (some lc) details =
      details.filter (fun kv => allowed.contains kv.1 || kv.1 == "book_id") ∧
    (∀ kv ∈ _get_book_details_impl (some lc) details, kv.1 ∈ allowed ∨ kv.1 = "book_id") ∧
    (∀ kv ∈ details, kv.1 ∈ allowed ∨ kv.1 = "book_id" →
       kv ∈ _get_book_details_impl (some lc) details) ∧
    (∀ (lc' : LibConf) (details' : List (String × Value)),
       lc'.permissions.read = .pTrue ∨ lc'.permissions.read = .pFalse →
       _get_book_details_impl (some lc') details' = details') := by
  obtain ⟨nm, rd, wr⟩ := lc
  dsimp only at hread
  subst hread
  refine ⟨rfl, ?_, ?_, ?_⟩
  · intro kv hkv
    have hf : kv ∈ details.filter (fun kv => allowed.contains kv.1 || kv.1 == "book_id") := hkv
    have := (List.mem_filter.mp hf).2
    simpa using this
  · intro kv hkv hcond
    show kv ∈ details.filter (fun kv => allowed.contains kv.1 || kv.1 == "book_id")
    refine List.mem_filter.mpr ⟨hkv, ?_⟩
    simpa using hcond
  · intro lc' details' hbool
    obtain ⟨nm', rd', wr'⟩ := lc'
    dsimp only at hbool
    rcases hbool with h | h <;> subst h <;> rfl

/-- Witness for C9: a two-field grant keeps `title` and `book_id` and drops
`secret`. -/
theorem claim9_book_details_read_filter_witness :
    ({ name := none, permissions := { read := .pList ["title"], write := .pFalse } } :
        LibConf).permissions.read = .pList ["title"] ∧
    _get_book_details_impl
        (some { name := none, permissions := { read := .pList ["title"], write := .pFalse } })
        [("title", .vStr "Dune"), ("secret", .vStr "x"), ("book_id", .vInt 7)] =
      [("title", .vStr "Dune"), ("book_id", .vInt 7)] :=
  ⟨rfl,
   (claim9_book_details_read_filter
      { name := none, permissions := { read := .pList ["title"], write := .pFalse } }
      ["title"]
      [("title", .vStr "Dune"), ("secret", .vStr "x"), ("book_id", .vInt 7)] rfl).1.trans
    (by rfl)⟩

/-- The field-value sort key comparison is transitive. -/
theorem fieldValueLe_trans (a b c : String × Int) (hab : fieldValueLe a b = true)
    (hbc : fieldValueLe b c = true) : fieldValueLe a c = true := by
  simp only [fieldValueLe, Bool.or_eq_true, Bool.and_eq_true, decide_eq_true_eq,
    beq_iff_eq] at *
  rcases hab with h1 | ⟨h1, h2⟩ <;> rcases hbc with h3 | ⟨h3, h4⟩
  · exact Or.inl (by omega)
  · exact Or.inl (by omega)
  · exact Or.inl (by omega)
  · exact Or.inr ⟨by omega, le_trans h2 h4⟩

/-- The field-value sort key comparison is total. -/
theorem fieldValueLe_total (a b : String × Int) :
    (fieldValueLe a b || fieldValueLe b a) = true := by
  simp only [fieldValueLe, Bool.or_eq_true, Bool.and_eq_true, decide_eq_true_eq,
    beq_iff_eq]
  rcases lt_trichotomy a.2 b.2 with h | h | h
  · exact Or.inr (Or.inl h)
  · rcases le_total (pyLower a.1) (pyLower b.1) with hle | hle
    · exact Or.inl (Or.inr ⟨h, hle⟩)
    · exact Or.inr (Or.inr ⟨h.symm, hle⟩)
  · exact Or.inl (Or.inl h)

/-- Claim C10: `get_field_values` returns the value/count pairs sorted by
descending count with ties broken by case-insensitively ascending value,
paginated by offset and limit over that sorted list, with `total_results`
equal to the number of entries of the backend mapping — i.e. the number of
distinct values — before pagination. -/
theorem claim10_field_values_sorted_paged (fieldName : String)
    (counts : List (String × Int)) (limit offset : Nat) :
    List.Pairwise (fun a b => b.2 < a.2 ∨ (a.2 = b.2 ∧ pyLower a.1 ≤ pyLower b.1))
      (counts.mergeSort fieldValueLe) ∧
    (counts.mergeSort fieldValueLe).Perm counts ∧
    (_get_field_values_impl fieldName counts limit offset).results =
      ((counts.mergeSort fieldValueLe).drop offset).take limit ∧
    (_get_field_values_impl fieldName counts limit offset).totalResults = counts.length ∧
    (_get_field_values_impl fieldName counts limit offset).fieldName = fieldName ∧
    (_get_field_values_impl fieldName counts limit offset).offset = offset ∧
    (_get_field_values_impl fieldName counts limit offset).limit = limit := by
  have hsorted := @List.sorted_mergeSort _ fieldValueLe
    (fun a b c => fieldValueLe_trans a b c) (fun a b => fieldValueLe_total a b) counts
  have hperm := List.mergeSort_perm counts fieldValueLe
  refine ⟨?_, hperm, rfl, ?_, rfl, rfl, rfl⟩
  · refine hsorted.imp ?_
    intro a b h
    simpa only [fieldValueLe, Bool.or_eq_true, Bool.and_eq_true, decide_eq_true_eq,
      beq_iff_eq] using h
  · show (counts.mergeSort fieldValueLe).length = counts.length
    exact hperm.length_eq

/-- Membership in a grant's `allowed_cols` contribution ignores the
non-emptiness guard: it is just membership in the grant's field list. -/
theorem mem_permContrib (p : PermVal) (x : String) :
    x ∈ permContrib p ↔ x ∈ grantFields p := by
  cases p <;> simp only [permContrib, grantFields] <;> try rfl
  split
  · next h =>
      rw [List.isEmpty_iff.mp h]
  · next h => rfl

/-- Unfolding equation of `_get_library_schema_impl` on a cache hit. -/
theorem schema_impl_hit_eq (cache : SchemaCache) (conf : Option LibConf)
    (libName : Option String) (bs cached : Schema)
    (h : (cache.find? (fun kv => kv.1 = libName)).map (·.2) = some cached) :
    _get_library_schema_impl cache conf libName bs = (cached, [], cache) := by
  unfold _get_library_schema_impl
  rw [h]

/-- Unfolding equation of `_get_library_schema_impl` on a cache miss. -/
theorem schema_impl_miss_eq (cache : SchemaCache) (conf : Option LibConf)
    (libName : Option String) (bs : Schema)
    (h : cache.find? (fun kv => kv.1 = libName) = none) :
    _get_library_schema_impl cache conf libName bs =
      match conf with
      | some lc =>
        if lc.permissions.read ≠ .pTrue ∧ lc.permissions.write ≠ .pTrue then
          (bs.filter (fun kv =>
             (permContrib lc.permissions.read ++ permContrib lc.permissions.write).contains kv.1),
           ["get_library_schema"],
           cache ++ [(libName, bs.filter (fun kv =>
             (permContrib lc.permissions.read ++ permContrib lc.permissions.write).contains kv.1))])
        else (bs, ["get_library_schema"], cache ++ [(libName, bs)])
      | none => (bs, ["get_library_schema"], cache ++ [(libName, bs)]) := by
  unfold _get_library_schema_impl
  rw [h]
  rfl

/-- After any `_get_library_schema_impl` call the library is cached. -/
theorem schema_cache_hit_after (cache : SchemaCache) (conf : Option LibConf)
    (libName : Option String) (bs : Schema) :
    ((_get_library_schema_impl cache conf libName bs).2.2.find?
      (fun kv => kv.1 = libName)).isSome = true := by
  cases hfind : (cache.find? (fun kv => kv.1 = libName)) with
  | some kv =>
    have heq : _get_library_schema_impl cache conf libName bs = (kv.2, [], cache) := by
      unfold _get_library_schema_impl
      rw [hfind]
      rfl
    rw [heq]
    show (cache.find? (fun kv => kv.1 = libName)).isSome = true
    rw [hfind]
    rfl
  | none =>
    rw [schema_impl_miss_eq cache conf libName bs hfind]
    have hsingle : ∀ s : Schema,
        ((cache ++ [(libName, s)]).find? (fun kv => kv.1 = libName)).isSome = true := by
      intro s
      rw [List.find?_append, hfind]
      simp
    cases conf with
    | none => exact hsingle _
    | some lc =>
      dsimp only
      by_cases hc : lc.permissions.read ≠ .pTrue ∧ lc.permissions.write ≠ .pTrue
      · rw [if_pos hc]; exact hsingle _
      · rw [if_neg hc]; exact hsingle _

/-- Claim C8: the get-schema operation fetches a library's field schema
from the backend at most once per library for the process lifetime — a
cached library is answered without any RPC, an uncached one dispatches
exactly one `get_library_schema` RPC and caches the result, so the call
after any call dispatches none — and when neither the read grant nor the
write grant is the boolean `True`, the cached and returned mapping
contains exactly those schema fields that appear in the read field list or
the write field list. -/
theorem claim8_schema_cached_once_and_filtered :
    (∀ (cache : SchemaCache) (conf : Option LibConf) (libName : Option String)
       (bs cached : Schema),
       (cache.find? (fun kv => kv.1 = libName)).map (·.2) = some cached →
       _get_library_schema_impl cache conf libName bs = (cached, [], cache)) ∧
    (∀ (cache : SchemaCache) (conf : Option LibConf) (libName : Option String) (bs : Schema),
       cache.find? (fun kv => kv.1 = libName) = none →
       (_get_library_schema_impl cache conf libName bs).2.1 = ["get_library_schema"] ∧
       (_get_library_schema_impl cache conf libName bs).2.2 =
         cache ++ [(libName, (_get_library_schema_impl cache conf libName bs).1)]) ∧
    (∀ (cache : SchemaCache) (conf conf' : Option LibConf) (libName : Option String)
       (bs bs' : Schema),
       (_get_library_schema_impl
         (_get_library_schema_impl cache conf libName bs).2.2 conf' libName bs').2.1 = []) ∧
    (∀ (cache : SchemaCache) (lc : LibConf) (libName : Option String) (bs : Schema),
       cache.find? (fun kv => kv.1 = libName) = none →
       lc.permissions.read ≠ .pTrue → lc.permissions.write ≠ .pTrue →
       (_get_library_schema_impl cache (some lc) libName bs).1 =
         bs.filter (fun kv =>
           decide (kv.1 ∈ grantFields lc.permissions.read) ||
           decide (kv.1 ∈ grantFields lc.permissions.write))) := by
  have hhit : ∀ (cache : SchemaCache) (conf : Option LibConf) (libName : Option String)
      (bs cached : Schema),
      (cache.find? (fun kv => kv.1 = libName)).map (·.2) = some cached →
      _get_library_schema_impl cache conf libName bs = (cached, [], cache) :=
    fun cache conf libName bs cached h => schema_impl_hit_eq cache conf libName bs cached h
  refine ⟨hhit, ?_, ?_, ?_⟩
  · intro cache conf libName bs h
    rw [schema_impl_miss_eq cache conf libName bs h]
    cases conf with
    | none => exact ⟨rfl, rfl⟩
    | some lc =>
      dsimp only
      by_cases hc : lc.permissions.read ≠ .pTrue ∧ lc.permissions.write ≠ .pTrue
      · rw [if_pos hc]; exact ⟨rfl, rfl⟩
      · rw [if_neg hc]; exact ⟨rfl, rfl⟩
  · intro cache conf conf' libName bs bs'
    have hs := schema_cache_hit_after cache conf libName bs
    obtain ⟨kv, hkv⟩ := Option.isSome_iff_exists.mp hs
    have := hhit (_get_library_schema_impl cache conf libName bs).2.2 conf' libName bs' kv.2
      (by rw [hkv]; rfl)
    rw [this]
  · intro cache lc libName bs h h1 h2
    rw [schema_impl_miss_eq cache (some lc) libName bs h]
    dsimp only
    rw [if_pos ⟨h1, h2⟩]
    show bs.filter _ = bs.filter _
    apply List.filter_congr
    intro kv _
    have hmr := mem_permContrib lc.permissions.read kv.1
    have hmw := mem_permContrib lc.permissions.write kv.1
    rw [Bool.eq_iff_iff]
    simp only [List.elem_iff, Bool.or_eq_true, decide_eq_true_eq, List.mem_append]
    constructor
    · intro hin
      rcases hin with hr | hw
      · exact Or.inl (hmr.mp hr)
      · exact Or.inr (hmw.mp hw)
    · intro hin
      rcases hin with hr | hw
      · exact Or.inl (hmr.mpr hr)
      · exact Or.inr (hmw.mpr hw)

/-- Witness for C8: with an empty cache, a list-granted library fetches
once and caches the filtered mapping; the cached branch and the filter
shape are exercised on a concrete two-column schema. -/
theorem claim8_schema_cached_once_and_filtered_witness :
    (([] : SchemaCache).find? (fun kv => kv.1 = (none : Option String)) = none) ∧
    (_get_library_schema_impl []
        (some { name := none, permissions := { read := .pList ["title"], write := .pFalse } })
        none [("title", {}), ("secret", {})]).1 =
      [("title", {}), ("secret", {})].filter (fun kv =>
        decide (kv.1 ∈ grantFields (.pList ["title"])) ||
        decide (kv.1 ∈ grantFields .pFalse)) :=
  ⟨rfl,
   claim8_schema_cached_once_and_filtered.2.2.2 []
     { name := none, permissions := { read := .pList ["title"], write := .pFalse } }
     none [("title", {}), ("secret", {})] rfl
     (by intro h; cases h) (by intro h; cases h)⟩

/-- Folding with pairwise list-append accumulators is concatenation. -/
theorem foldl_append_pair {α β γ : Type} (f1 : α → List β) (f2 : α → List γ) :
    ∀ (l : List α) (a : List β) (b : List γ),
      l.foldl (fun acc fv => (acc.1 ++ f1 fv, acc.2 ++ f2 fv)) (a, b) =
        (a ++ l.flatMap f1, b ++ l.flatMap f2) := by
  intro l
  induction l with
  | nil => intro a b; simp
  | cons x t ih =>
    intro a b
    simp only [List.foldl_cons, ih, List.flatMap_cons, List.append_assoc]

/-- The validator is the per-field loop body folded over the change set:
its normalized entries and its error list are exactly the concatenations
of each field's own contributions (the whole change set enters each field
only as the lookup context for sibling `_index` keys).  This is the
"processes every field independently and accumulates all errors" shape. -/
theorem validate_eq_flatMap (parseDT : String → Option String)
    (changes : List (String × Value)) (schema : List (String × FieldSchema)) :
    _validate_and_normalize_changes parseDT changes schema =
      (changes.flatMap (fun fv => (validateField parseDT changes schema fv.1 fv.2).1),
       changes.flatMap (fun fv => (validateField parseDT changes schema fv.1 fv.2).2)) := by
  unfold _validate_and_normalize_changes
  have h := foldl_append_pair (fun fv => (validateField parseDT changes schema fv.1 fv.2).1)
    (fun fv => (validateField parseDT changes schema fv.1 fv.2).2) changes [] []
  exact h.trans (by simp)

/-- The series arm always yields a normalized entry or an error. -/
theorem validateSeriesField_outputs (changes : List (String × Value)) (f vs : String) :
    (validateSeriesField changes f vs).1 ≠ [] ∨ (validateSeriesField changes f vs).2 ≠ [] := by
  unfold validateSeriesField
  rcases hn : _normalize_series_field vs with e | ⟨sName, sIdx⟩ <;> simp only [hn]
  · simp
  · rcases sIdx with _ | q <;> dsimp only
    · simp
    · rcases hg : alistGet? changes (f ++ "_index") with _ | iv <;> simp only [hg]
      · simp
      · rcases hpf : pyFloat? iv with _ | pq <;> simp only [hpf]
        · simp
        · split <;> simp

set_option maxHeartbeats 2000000 in
/-- Every field the loop visits contributes a normalized entry or an error
(every arm of the loop body returns at least one of the two). -/
theorem validateField_outputs (parseDT : String → Option String)
    (changes : List (String × Value)) (schema : List (String × FieldSchema))
    (f : String) (v : Value) :
    (validateField parseDT changes schema f v).1 ≠ [] ∨
    (validateField parseDT changes schema f v).2 ≠ [] := by
  unfold validateField
  repeat' split
  all_goals try exact validateSeriesField_outputs changes f (pyStr v)
  all_goals try simp
  all_goals (repeat' split) <;> simp

/-- The schema fetch dispatches either nothing (cache hit) or exactly the
one `get_library_schema` RPC. -/
theorem schema_trace_cases (cache : SchemaCache) (conf : Option LibConf)
    (libName : Option String) (bs : Schema) :
    (_get_library_schema_impl cache conf libName bs).2.1 = [] ∨
    (_get_library_schema_impl cache conf libName bs).2.1 = ["get_library_schema"] := by
  cases hfind : (cache.find? (fun kv => kv.1 = libName)) with
  | some kv =>
    left
    rw [schema_impl_hit_eq cache conf libName bs kv.2 (by rw [hfind]; rfl)]
  | none =>
    right
    rw [schema_impl_miss_eq cache conf libName bs hfind]
    cases conf with
    | none => rfl
    | some lc =>
      dsimp only
      by_cases hc : lc.permissions.read ≠ .pTrue ∧ lc.permissions.write ≠ .pTrue
      · rw [if_pos hc]
      · rw [if_neg hc]

/-- When validation reports any error, `update_book` raises `ValueError`
and the `update_book` RPC is never dispatched. -/
theorem update_book_gate (cache : SchemaCache) (libName : Option String) (bs : Schema)
    (parseDT : String → Option String) (ures : Value) (changes : List (String × Value))
    (lc : LibConf) (wp : PermVal)
    (hw : check_write_permission lc (some (changes.map (·.1))) = .ok wp)
    (herr : (_validate_and_normalize_changes parseDT changes
        (_get_library_schema_impl cache (some lc) libName bs).1).2 ≠ []) :
    (∃ msg, (_update_book_impl cache (some lc) libName bs parseDT ures changes).result =
       .error (.valueError msg)) ∧
    "update_book" ∉ (_update_book_impl cache (some lc) libName bs parseDT ures changes).rpcTrace := by
  rcases he : _get_library_schema_impl cache (some lc) libName bs with ⟨s, tr, c'⟩
  have herr' : (_validate_and_normalize_changes parseDT changes s).2 ≠ [] := by
    rw [he] at herr; exact herr
  have htr : tr = [] ∨ tr = ["get_library_schema"] := by
    have h := schema_trace_cases cache (some lc) libName bs
    rw [he] at h; exact h
  unfold _update_book_impl
  dsimp only
  rw [hw]
  dsimp only
  rw [he]
  dsimp only
  rw [if_pos herr']
  refine ⟨⟨_, rfl⟩, ?_⟩
  rcases htr with h | h <;> simp [h]

/-- Claim C1 (amended): for every change set and schema, validation is the
concatenation of each field's independently computed normalized entries
and error messages (all errors are accumulated, and every field
contributes an entry or an error), and if any field produced an error,
`update_book` raises a validation error without dispatching the
`update_book` RPC, so no field of the change set — the valid ones
included — is applied.  The original claim's stronger reading "before
dispatching any backend RPC" is refuted by `claim1_counterexample`: when
the schema is not yet cached, the `get_library_schema` fetch is dispatched
before validation runs. -/
theorem claim1_validation_all_fields_atomic (parseDT : String → Option String)
    (cache : SchemaCache) (libName : Option String) (bs : Schema) (ures : Value)
    (changes : List (String × Value)) (lc : LibConf) (wp : PermVal)
    (hw : check_write_permission lc (some (changes.map (·.1))) = .ok wp) :
    (_validate_and_normalize_changes parseDT changes
        (_get_library_schema_impl cache (some lc) libName bs).1).1 =
      changes.flatMap (fun fv => (validateField parseDT changes
        (_get_library_schema_impl cache (some lc) libName bs).1 fv.1 fv.2).1) ∧
    (_validate_and_normalize_changes parseDT changes
        (_get_library_schema_impl cache (some lc) libName bs).1).2 =
      changes.flatMap (fun fv => (validateField parseDT changes
        (_get_library_schema_impl cache (some lc) libName bs).1 fv.1 fv.2).2) ∧
    (∀ fv ∈ changes,
       (validateField parseDT changes
         (_get_library_schema_impl cache (some lc) libName bs).1 fv.1 fv.2).1 ≠ [] ∨
       (validateField parseDT changes
         (_get_library_schema_impl cache (some lc) libName bs).1 fv.1 fv.2).2 ≠ []) ∧
    ((_validate_and_normalize_changes parseDT changes
        (_get_library_schema_impl cache (some lc) libName bs).1).2 ≠ [] →
      (∃ msg, (_update_book_impl cache (some lc) libName bs parseDT ures changes).result =
         .error (.valueError msg)) ∧
      "update_book" ∉ (_update_book_impl cache (some lc) libName bs parseDT ures changes).rpcTrace) := by
  refine ⟨?_, ?_, ?_, ?_⟩
  · rw [validate_eq_flatMap]
  · rw [validate_eq_flatMap]
  · intro fv _
    exact validateField_outputs parseDT changes _ fv.1 fv.2
  · intro herr
    exact update_book_gate cache libName bs parseDT ures changes lc wp hw herr

/-- Counterexample to C1 as literally stated: with an uncached schema, a
change set whose only field is invalid still dispatches the
`get_library_schema` RPC before the validation error is raised, so "raises
a validation error before dispatching any backend RPC" does not hold of
the code (only the mutating `update_book` RPC is withheld). -/
theorem claim1_counterexample :
    (_update_book_impl [] (some permissiveLibConf) none seriesSchemaEx (fun _ => none)
        (.vStr "ok") [("rating", .vInt 11)]).rpcTrace = ["get_library_schema"] ∧
    (_update_book_impl [] (some permissiveLibConf) none seriesSchemaEx (fun _ => none)
        (.vStr "ok") [("rating", .vInt 11)]).result =
      .error (.valueError
        "Validation errors occurred:\n  - Field 'rating' (rating): value must be between 0 and 10, got 11.") :=
  ⟨rfl, rfl⟩

/-- Witness for C1: the write grant is satisfied at a concrete rejected
change set, and the validation-gate branch of the theorem fires. -/
theorem claim1_validation_all_fields_atomic_witness :
    check_write_permission permissiveLibConf
        (some ([(("rating" : String), Value.vInt 11)].map (·.1))) = .ok .pTrue ∧
    ((∃ msg, (_update_book_impl [] (some permissiveLibConf) none seriesSchemaEx (fun _ => none)
        (.vStr "ok") [("rating", .vInt 11)]).result = .error (.valueError msg)) ∧
     "update_book" ∉ (_update_book_impl [] (some permissiveLibConf) none seriesSchemaEx
        (fun _ => none) (.vStr "ok") [("rating", .vInt 11)]).rpcTrace) :=
  ⟨rfl,
   (claim1_validation_all_fields_atomic (fun _ => none) [] none seriesSchemaEx (.vStr "ok")
      [("rating", .vInt 11)] permissiveLibConf .pTrue rfl).2.2.2 (by decide)⟩

/-- Reduction of the loop body on a field whose schema datatype is none of
the ten known tags: the raw value passes through into the normalized
change set and an error message records that it was not validated. -/
theorem validateField_unknown_eq (parseDT : String → Option String)
    (changes : List (String × Value)) (schema : List (String × FieldSchema))
    (f : String) (v : Value) (fs : FieldSchema)
    (hfind : (schema.find? (fun kv => kv.1 = f)).map (·.2) = some fs)
    (hunk : ∀ tag ∈ knownDatatypes, fs.datatype ≠ some tag) :
    validateField parseDT changes schema f v =
      ([(f, v)],
       ["Field '" ++ f ++ "': unknown datatype '" ++ datatypeStr fs.datatype ++
        "', passing value through without validation."]) := by
  have h1 : fs.datatype ≠ some "text" := hunk "text" (by decide)
  have h2 : fs.datatype ≠ some "series" := hunk "series" (by decide)
  have h3 : fs.datatype ≠ some "rating" := hunk "rating" (by decide)
  have h4 : fs.datatype ≠ some "datetime" := hunk "datetime" (by decide)
  have h5 : fs.datatype ≠ some "int" := hunk "int" (by decide)
  have h6 : fs.datatype ≠ some "float" := hunk "float" (by decide)
  have h7 : fs.datatype ≠ some "composite" := hunk "composite" (by decide)
  have h8 : fs.datatype ≠ some "enumeration" := hunk "enumeration" (by decide)
  have h9 : fs.datatype ≠ some "comments" := hunk "comments" (by decide)
  have h10 : fs.datatype ≠ some "bool" := hunk "bool" (by decide)
  unfold validateField
  rw [hfind]
  dsimp only
  split
  all_goals first
    | rfl
    | simp_all

/-- Claim C7 (amended): a field whose schema datatype is not one of the
ten known tags passes its raw value through unvalidated into the
normalized change set, and the caller can detect this because an "unknown
datatype" message is simultaneously appended to the error list — but
precisely because that message lands in the error list, such a field DOES
cause `update_book` to reject the whole change set (the original claim's
"does not cause the change set to be rejected" is refuted by
`claim7_counterexample`). -/
theorem claim7_unknown_datatype_passthrough (parseDT : String → Option String)
    (changes : List (String × Value)) (schema : List (String × FieldSchema))
    (f : String) (v : Value) (fs : FieldSchema)
    (hmem : (f, v) ∈ changes)
    (hfind : (schema.find? (fun kv => kv.1 = f)).map (·.2) = some fs)
    (hunk : ∀ tag ∈ knownDatatypes, fs.datatype ≠ some tag) :
    validateField parseDT changes schema f v =
      ([(f, v)],
       ["Field '" ++ f ++ "': unknown datatype '" ++ datatypeStr fs.datatype ++
        "', passing value through without validation."]) ∧
    (f, v) ∈ (_validate_and_normalize_changes parseDT changes schema).1 ∧
    ("Field '" ++ f ++ "': unknown datatype '" ++ datatypeStr fs.datatype ++
     "', passing value through without validation.") ∈
      (_validate_and_normalize_changes parseDT changes schema).2 ∧
    (∀ (cache : SchemaCache) (libName : Option String) (bs : Schema) (lc : LibConf)
       (wp : PermVal) (ures : Value),
       (_get_library_schema_impl cache (some lc) libName bs).1 = schema →
       check_write_permission lc (some (changes.map (·.1))) = .ok wp →
       (∃ msg, (_update_book_impl cache (some lc) libName bs parseDT ures changes).result =
          .error (.valueError msg)) ∧
       "update_book" ∉
         (_update_book_impl cache (some lc) libName bs parseDT ures changes).rpcTrace) := by
  have hvf := validateField_unknown_eq parseDT changes schema f v fs hfind hunk
  have hmemErr : ("Field '" ++ f ++ "': unknown datatype '" ++ datatypeStr fs.datatype ++
      "', passing value through without validation.") ∈
      (_validate_and_normalize_changes parseDT changes schema).2 := by
    rw [validate_eq_flatMap]
    refine List.mem_flatMap.mpr ⟨(f, v), hmem, ?_⟩
    show _ ∈ (validateField parseDT changes schema f v).2
    rw [hvf]
    exact List.mem_singleton.mpr rfl
  refine ⟨hvf, ?_, hmemErr, ?_⟩
  · rw [validate_eq_flatMap]
    refine List.mem_flatMap.mpr ⟨(f, v), hmem, ?_⟩
    show _ ∈ (validateField parseDT changes schema f v).1
    rw [hvf]
    exact List.mem_singleton.mpr rfl
  · intro cache libName bs lc wp ures hsch hwp
    apply update_book_gate cache libName bs parseDT ures changes lc wp hwp
    rw [hsch]
    intro hnil
    rw [hnil] at hmemErr
    exact absurd hmemErr (List.not_mem_nil _)

/-- Counterexample to C7 as literally stated: a change set containing only
an unknown-datatype field is normalized to the raw value, yet
`update_book` raises the validation error and never dispatches the
`update_book` RPC — the change set IS rejected. -/
theorem claim7_counterexample :
    (_validate_and_normalize_changes (fun _ => none) [("myfield", Value.vInt 7)]
        [("myfield", { datatype := some "weird" })]).1 = [("myfield", Value.vInt 7)] ∧
    (_update_book_impl [] (some permissiveLibConf) none
        [("myfield", { datatype := some "weird" })] (fun _ => none) (.vStr "ok")
        [("myfield", Value.vInt 7)]).result =
      .error (.valueError
        "Validation errors occurred:\n  - Field 'myfield': unknown datatype 'weird', passing value through without validation.") ∧
    "update_book" ∉ (_update_book_impl [] (some permissiveLibConf) none
        [("myfield", { datatype := some "weird" })] (fun _ => none) (.vStr "ok")
        [("myfield", Value.vInt 7)]).rpcTrace :=
  ⟨rfl, rfl, by decide⟩

/-- Witness for C7: the unknown-datatype hypotheses hold of a concrete
one-field schema, and the theorem's per-field reduction then evaluates. -/
theorem claim7_unknown_datatype_passthrough_witness :
    ((("myfield" : String), Value.vInt 7) ∈ [(("myfield" : String), Value.vInt 7)]) ∧
    validateField (fun _ => none) [("myfield", Value.vInt 7)]
        [("myfield", { datatype := some "weird" })] "myfield" (Value.vInt 7) =
      ([("myfield", Value.vInt 7)],
       ["Field 'myfield': unknown datatype '" ++
          datatypeStr (some "weird") ++ "', passing value through without validation."]) :=
  ⟨List.mem_singleton.mpr rfl,
   (claim7_unknown_datatype_passthrough (fun _ => none) [("myfield", Value.vInt 7)]
      [("myfield", { datatype := some "weird" })] "myfield" (Value.vInt 7)
      { datatype := some "weird" } (List.mem_singleton.mpr rfl) rfl (by decide)).1⟩

/-- In a list with pairwise-distinct keys, two members with the same key
are the same entry. -/
theorem nodup_keys_eq {α β : Type} {l : List (α × β)} (h : (l.map Prod.fst).Nodup)
    {x y : α × β} (hx : x ∈ l) (hy : y ∈ l) (heq : x.1 = y.1) : x = y := by
  induction l with
  | nil => cases hx
  | cons a t ih =>
    rw [List.map_cons, List.nodup_cons] at h
    rcases List.mem_cons.mp hx with rfl | hx' <;> rcases List.mem_cons.mp hy with rfl | hy'
    · rfl
    · exact absurd (heq ▸ List.mem_map_of_mem Prod.fst hy') h.1
    · exact absurd (heq ▸ List.mem_map_of_mem Prod.fst hx') h.1
    · exact ih h.2 hx' hy'

/-- The keep-first minimum fold lands on a member of minimal timestamp. -/
theorem foldlMin_spec (t : List (CacheKey × CacheEntry)) :
    ∀ x : CacheKey × CacheEntry,
      (t.foldl (fun best kv => if kv.2.timestamp < best.2.timestamp then kv else best) x = x ∨
       t.foldl (fun best kv => if kv.2.timestamp < best.2.timestamp then kv else best) x ∈ t) ∧
      (t.foldl (fun best kv => if kv.2.timestamp < best.2.timestamp then kv else best)
        x).2.timestamp ≤ x.2.timestamp ∧
      (∀ y ∈ t, (t.foldl (fun best kv => if kv.2.timestamp < best.2.timestamp then kv else best)
        x).2.timestamp ≤ y.2.timestamp) := by
  induction t with
  | nil => intro x; simp
  | cons a t ih =>
    intro x
    simp only [List.foldl_cons]
    by_cases hc : a.2.timestamp < x.2.timestamp
    · rw [if_pos hc]
      obtain ⟨hmem, hle, hmin⟩ := ih a
      refine ⟨?_, le_trans hle (le_of_lt hc), ?_⟩
      · rcases hmem with h | h
        · exact Or.inr (by rw [h]; exact List.mem_cons_self a t)
        · exact Or.inr (List.mem_cons_of_mem a h)
      · intro y hy
        rcases List.mem_cons.mp hy with rfl | hy'
        · exact hle
        · exact hmin y hy'
    · rw [if_neg hc]
      obtain ⟨hmem, hle, hmin⟩ := ih x
      refine ⟨?_, hle, ?_⟩
      · rcases hmem with h | h
        · exact Or.inl h
        · exact Or.inr (List.mem_cons_of_mem a h)
      · intro y hy
        rcases List.mem_cons.mp hy with rfl | hy'
        · exact le_trans hle (not_lt.mp hc)
        · exact hmin y hy'

/-- `oldestCacheKey` returns the key of an entry with globally minimal
timestamp. -/
theorem oldestCacheKey_spec (cache : List (CacheKey × CacheEntry)) (hne : cache ≠ []) :
    ∃ k₀ e₀, oldestCacheKey cache = some k₀ ∧ (k₀, e₀) ∈ cache ∧
      ∀ kv ∈ cache, e₀.timestamp ≤ kv.2.timestamp := by
  cases cache with
  | nil => exact absurd rfl hne
  | cons x t =>
    obtain ⟨hmem, hle, hmin⟩ := foldlMin_spec t x
    set b := t.foldl (fun best kv => if kv.2.timestamp < best.2.timestamp then kv else best) x
      with hb
    refine ⟨b.1, b.2, ?_, ?_, ?_⟩
    · rfl
    · rcases hmem with h | h
      · rw [h]; exact List.mem_cons_self x t
      · exact List.mem_cons_of_mem x h
    · intro kv hkv
      rcases List.mem_cons.mp hkv with rfl | hkv'
      · exact hle
      · exact hmin kv hkv'

set_option maxRecDepth 8000 in
/-- Claim C4: when the search cache holds its maximum of 50 entries and a
new distinct (library, document, query) key is inserted, exactly one entry
is evicted — the one with the globally oldest timestamp — and a cache hit
refreshes an entry's timestamp in place; consequently the evicted entry
need not be the least-recently-inserted one, as the concrete scenario of a
full cache whose first-inserted entry was refreshed shows (entry 1, not
entry 0, is evicted). -/
theorem claim4_capacity_evicts_oldest_timestamp :
    (∀ (cache : List (CacheKey × CacheEntry)) (key : CacheKey) (entry : CacheEntry),
       cache.length = MAX_CACHE_SIZE →
       key ∉ cache.map Prod.fst →
       (cache.map Prod.fst).Nodup →
       ∃ k₀ e₀ l₁ l₂,
         oldestCacheKey cache = some k₀ ∧
         cache = l₁ ++ (k₀, e₀) :: l₂ ∧
         (∀ kv ∈ cache, e₀.timestamp ≤ kv.2.timestamp) ∧
         cacheInsertWithEviction cache key entry = (l₁ ++ l₂) ++ [(key, entry)] ∧
         (cacheInsertWithEviction cache key entry).length = MAX_CACHE_SIZE) ∧
    (∀ (cache : List (CacheKey × CacheEntry)) (key : CacheKey) (now : Int),
       (cacheTouch cache key now).map Prod.fst = cache.map Prod.fst ∧
       (∀ kv ∈ cache, kv.1 = key →
          (kv.1, { kv.2 with timestamp := now }) ∈ cacheTouch cache key now) ∧
       (∀ kv ∈ cache, kv.1 ≠ key → kv ∈ cacheTouch cache key now)) ∧
    (oldestCacheKey refreshedCacheEx = some (none, 1, "q") ∧
     ((cacheInsertWithEviction refreshedCacheEx (none, 50, "q")
        ⟨101, []⟩).map Prod.fst).contains (none, 0, "q") = true ∧
     ((cacheInsertWithEviction refreshedCacheEx (none, 50, "q")
        ⟨101, []⟩).map Prod.fst).contains (none, 1, "q") = false) := by
  refine ⟨?_, ?_, ?_⟩
  · intro cache key entry hlen _hnew hnodup
    have hne : cache ≠ [] := by
      intro h
      rw [h] at hlen
      exact absurd hlen.symm (by decide)
    obtain ⟨k₀, e₀, hold, hmem, hmin⟩ := oldestCacheKey_spec cache hne
    obtain ⟨a, l₁, l₂, hl₁, hpa, hdecomp, herase⟩ :=
      @List.exists_of_eraseP _ (fun kv => decide (kv.1 = k₀)) cache (k₀, e₀) hmem (by simp)
    have hamem : a ∈ cache := by rw [hdecomp]; exact List.mem_append_right l₁ (List.mem_cons_self a l₂)
    have ha : a = (k₀, e₀) := nodup_keys_eq hnodup hamem hmem (by simpa using hpa)
    have hevict : cacheInsertWithEviction cache key entry = (l₁ ++ l₂) ++ [(key, entry)] := by
      unfold cacheInsertWithEviction
      rw [if_pos (le_of_eq hlen.symm), hold]
      dsimp only
      rw [herase]
    refine ⟨k₀, e₀, l₁, l₂, hold, by rw [← ha]; exact hdecomp, hmin, hevict, ?_⟩
    rw [hevict]
    have h2 : l₁.length + (1 + l₂.length) = MAX_CACHE_SIZE := by
      rw [← hlen, hdecomp]
      simp only [List.length_append, List.length_cons]
      omega
    simp only [List.length_append, List.length_cons, List.length_nil]
    omega
  · intro cache key now
    refine ⟨?_, ?_, ?_⟩
    · unfold cacheTouch
      rw [List.map_map]
      apply List.map_congr_left
      intro kv _
      by_cases h : kv.1 = key <;> simp [h]
    · intro kv hkv hk
      unfold cacheTouch
      refine List.mem_map.mpr ⟨kv, hkv, ?_⟩
      simp [hk]
    · intro kv hkv hk
      unfold cacheTouch
      refine List.mem_map.mpr ⟨kv, hkv, ?_⟩
      simp [hk]
  · exact ⟨rfl, rfl, rfl⟩

set_option maxRecDepth 8000 in
/-- Witness for C4: the concrete 50-entry cache satisfies the capacity,
freshness-of-key and key-uniqueness hypotheses, and the eviction
decomposition follows from the theorem. -/
theorem claim4_capacity_evicts_oldest_timestamp_witness :
    refreshedCacheEx.length = MAX_CACHE_SIZE ∧
    ((none, 50, "q") : CacheKey) ∉ refreshedCacheEx.map Prod.fst ∧
    (refreshedCacheEx.map Prod.fst).Nodup ∧
    (∃ k₀ e₀ l₁ l₂,
       oldestCacheKey refreshedCacheEx = some k₀ ∧
       refreshedCacheEx = l₁ ++ (k₀, e₀) :: l₂ ∧
       (∀ kv ∈ refreshedCacheEx, e₀.timestamp ≤ kv.2.timestamp) ∧
       cacheInsertWithEviction refreshedCacheEx (none, 50, "q") ⟨101, []⟩ =
         (l₁ ++ l₂) ++ [((none, 50, "q"), ⟨101, []⟩)] ∧
       (cacheInsertWithEviction refreshedCacheEx (none, 50, "q") ⟨101, []⟩).length =
         MAX_CACHE_SIZE) :=
  ⟨by decide, by decide, by decide,
   claim4_capacity_evicts_oldest_timestamp.1 refreshedCacheEx (none, 50, "q") ⟨101, []⟩
     (by decide) (by decide) (by decide)⟩

/-- Python tuple comparison on spans is transitive. -/
theorem spanLe_trans (a b c : Nat × Nat) (hab : spanLe a b = true) (hbc : spanLe b c = true) :
    spanLe a c = true := by
  simp only [spanLe, Bool.or_eq_true, Bool.and_eq_true, decide_eq_true_eq, beq_iff_eq] at *
  omega

/-- Python tuple comparison on spans is total. -/
theorem spanLe_total (a b : Nat × Nat) : (spanLe a b || spanLe b a) = true := by
  simp only [spanLe, Bool.or_eq_true, Bool.and_eq_true, decide_eq_true_eq, beq_iff_eq]
  omega

/-- Span order implies order of the start positions. -/
theorem spanLe_first {a b : Nat × Nat} (h : spanLe a b = true) : a.1 ≤ b.1 := by
  simp only [spanLe, Bool.or_eq_true, Bool.and_eq_true, decide_eq_true_eq, beq_iff_eq] at h
  omega

/-- The merge pass preserves the first span's start position. -/
theorem mergeAdjacent_first : ∀ (t : List (Nat × Nat)) (a : Nat × Nat),
    ∃ e rest, mergeAdjacent a t = (a.1, e) :: rest := by
  intro t
  induction t with
  | nil => intro a; exact ⟨a.2, [], rfl⟩
  | cons hd t ih =>
    intro a
    obtain ⟨cs, ce⟩ := hd
    unfold mergeAdjacent
    by_cases h : cs ≤ a.2
    · rw [if_pos h]
      obtain ⟨e, rest, heq⟩ := ih (a.1, max a.2 ce)
      exact ⟨e, rest, heq⟩
    · rw [if_neg h]
      exact ⟨a.2, mergeAdjacent (cs, ce) t, rfl⟩

/-- On spans sorted by start, the merge pass yields a chain of strictly
separated spans: each next span starts after the previous one ends (and
not before it starts), i.e. the output is sorted by start with every
touching or overlapping pair merged away. -/
theorem mergeAdjacent_chain : ∀ (t : List (Nat × Nat)) (a : Nat × Nat),
    List.Pairwise (fun x y => x.1 ≤ y.1) t → (∀ x ∈ t, a.1 ≤ x.1) →
    List.Chain' (fun x y => x.1 ≤ y.1 ∧ x.2 < y.1) (mergeAdjacent a t) := by
  intro t
  induction t with
  | nil => intro a _ _; simp [mergeAdjacent]
  | cons hd t ih =>
    intro a hp hall
    obtain ⟨cs, ce⟩ := hd
    unfold mergeAdjacent
    by_cases h : cs ≤ a.2
    · rw [if_pos h]
      exact ih (a.1, max a.2 ce) (List.pairwise_cons.mp hp).2
        (fun x hx => hall x (List.mem_cons_of_mem _ hx))
    · rw [if_neg h]
      obtain ⟨e, rest, heq⟩ := mergeAdjacent_first t (cs, ce)
      rw [heq]
      rw [List.chain'_cons]
      refine ⟨⟨hall (cs, ce) (List.mem_cons_self _ _), by omega⟩, ?_⟩
      rw [← heq]
      exact ih (cs, ce) (List.pairwise_cons.mp hp).2
        (fun x hx => ((List.pairwise_cons.mp hp).1 x hx))

/-- Claim C3: for every text and query, `find_matches` returns spans
sorted by start position with touching or overlapping spans merged into
one (consecutive output spans satisfy `prev.start ≤ next.start` and
`prev.end < next.start`), returns the empty list when no query term
matches any text token, and — for any stemmer that maps the words of the
example to themselves, as the Porter stemmer does — on the text
`"The cat sat near the dog today."` with query `"cat dog"` and window 500
it returns exactly the one merged span from the start of `"cat"` (4)
through the end of `"dog"` (24). -/
theorem claim3_find_matches_sorted_merged :
    (∀ (stem : String → String) (text query : String) (ws : Nat),
       List.Chain' (fun a b => a.1 ≤ b.1 ∧ a.2 < b.1) (_find_fts_matches stem text query ws)) ∧
    (∀ (stem : String → String) (text query : String) (ws : Nat),
       (∀ t ∈ wordTokens text, stem (pyLower t.2.2) ∉ queryStems stem query) →
       _find_fts_matches stem text query ws = []) ∧
    (∀ stem : String → String,
       stem "cat" = "cat" → stem "dog" = "dog" → stem "the" = "the" → stem "sat" = "sat" →
       stem "near" = "near" → stem "today" = "today" →
       _find_fts_matches stem "The cat sat near the dog today." "cat dog" 500 = [(4, 24)]) := by
  refine ⟨?_, ?_, ?_⟩
  · intro stem text query ws
    unfold _find_fts_matches
    dsimp only
    have hsorted := @List.sorted_mergeSort _ spanLe
      (fun a b c => spanLe_trans a b c) (fun a b => spanLe_total a b)
      (slidingWindowResults (queryStems stem query).length ws
        (candidateHits stem text (queryStems stem query)))
    cases hms : (slidingWindowResults (queryStems stem query).length ws
        (candidateHits stem text (queryStems stem query))).mergeSort spanLe with
    | nil => exact List.chain'_nil
    | cons r rest =>
      rw [hms] at hsorted
      have hp := List.pairwise_cons.mp hsorted
      exact mergeAdjacent_chain rest r
        ((hp.2).imp (fun h => spanLe_first h))
        (fun x hx => spanLe_first (hp.1 x hx))
  · intro stem text query ws h
    unfold _find_fts_matches
    dsimp only
    have hc : candidateHits stem text (queryStems stem query) = [] := by
      unfold candidateHits
      refine List.filterMap_eq_nil.mpr ?_
      intro t ht
      have hn := h t ht
      simp [hn]
    rw [hc]
    rw [show slidingWindowResults (queryStems stem query).length ws [] = [] from rfl]
    rw [List.mergeSort_nil]
  · intro stem h1 h2 h3 h4 h5 h6
    have htokT : wordTokens "The cat sat near the dog today." =
        [(0, 3, "The"), (4, 7, "cat"), (8, 11, "sat"), (12, 16, "near"), (17, 20, "the"),
         (21, 24, "dog"), (25, 30, "today")] := by decide
    have htokQ : wordTokens (pyLower "cat dog") = [(0, 3, "cat"), (4, 7, "dog")] := by decide
    have hq : queryStems stem "cat dog" = ["cat", "dog"] := by
      unfold queryStems
      rw [htokQ]
      simp only [List.map_cons, List.map_nil]
      rw [h1, h2]
      decide
    have hcand : candidateHits stem "The cat sat near the dog today." ["cat", "dog"] =
        [⟨4, 7, "cat"⟩, ⟨21, 24, "dog"⟩] := by
      unfold candidateHits
      rw [htokT]
      simp only [List.filterMap_cons, List.filterMap_nil]
      rw [show pyLower "The" = "the" from rfl, show pyLower "cat" = "cat" from rfl,
          show pyLower "sat" = "sat" from rfl, show pyLower "near" = "near" from rfl,
          show pyLower "the" = "the" from rfl, show pyLower "dog" = "dog" from rfl,
          show pyLower "today" = "today" from rfl]
      rw [h1, h2, h3, h4, h5, h6]
      decide
    unfold _find_fts_matches
    dsimp only
    rw [hq, hcand]
    have hsw : slidingWindowResults (["cat", "dog"] : List String).length 500
        [⟨4, 7, "cat"⟩, ⟨21, 24, "dog"⟩] = [(4, 24)] := by decide
    rw [hsw]
    have hms : ([((4 : Nat), (24 : Nat))]).mergeSort spanLe = [(4, 24)] :=
      List.perm_singleton.mp (List.mergeSort_perm [(4, 24)] spanLe)
    rw [hms]
    rfl

/-- Witness for C3: the identity stemmer satisfies the example's stemming
hypotheses, and the theorem instance evaluates the example. -/
theorem claim3_find_matches_sorted_merged_witness :
    (id "cat" = "cat" ∧ id "dog" = "dog" ∧ id "the" = "the" ∧ id "sat" = "sat" ∧
     id "near" = "near" ∧ id "today" = "today") ∧
    _find_fts_matches id "The cat sat near the dog today." "cat dog" 500 = [(4, 24)] :=
  ⟨⟨rfl, rfl, rfl, rfl, rfl, rfl⟩,
   claim3_find_matches_sorted_merged.2.2 id rfl rfl rfl rfl rfl rfl⟩

/-- A successful `findSome?` splits the list at the first hit. -/
theorem findSome?_decomp {α β : Type} (f : α → Option β) :
    ∀ (L : List α) (b : β), L.findSome? f = some b →
      ∃ L₁ x L₂, L = L₁ ++ x :: L₂ ∧ (∀ y ∈ L₁, f y = none) ∧ f x = some b := by
  intro L
  induction L with
  | nil => intro b h; cases h
  | cons a t ih =>
    intro b h
    cases hf : f a with
    | some v =>
      have hv : v = b := by
        have : List.findSome? f (a :: t) = some v := by
          show (match f a with | some b => some b | none => t.findSome? f) = some v
          rw [hf]
        rw [this] at h
        injection h
      exact ⟨[], a, t, rfl, by simp, by rw [hf, hv]⟩
    | none =>
      have ht : t.findSome? f = some b := by
        have : List.findSome? f (a :: t) = t.findSome? f := by
          show (match f a with | some b => some b | none => t.findSome? f) = t.findSome? f
          rw [hf]
        rw [this] at h
        exact h
      obtain ⟨L₁, x, L₂, hdec, hnone, hx⟩ := ih b ht
      exact ⟨a :: L₁, x, L₂, by rw [hdec]; rfl,
        fun y hy => by
          rcases List.mem_cons.mp hy with rfl | hy'
          · exact hf
          · exact hnone y hy', hx⟩

/-- A successful `find?` splits the list at the first hit. -/
theorem find?_decomp {α : Type} (p : α → Bool) :
    ∀ (L : List α) (x : α), L.find? p = some x →
      ∃ L₁ L₂, L = L₁ ++ x :: L₂ ∧ (∀ y ∈ L₁, p y = false) ∧ p x = true := by
  intro L
  induction L with
  | nil => intro x h; cases h
  | cons a t ih =>
    intro x h
    rw [List.find?_cons] at h
    cases hp : p a with
    | true =>
      rw [hp] at h
      injection h with h
      exact ⟨[], t, by rw [h]; rfl, by simp, by rw [← h]; exact hp⟩
    | false =>
      rw [hp] at h
      obtain ⟨L₁, L₂, hdec, hfalse, hx⟩ := ih x h
      exact ⟨a :: L₁, L₂, by rw [hdec]; rfl,
        fun y hy => by
          rcases List.mem_cons.mp hy with rfl | hy'
          · exact hp
          · exact hfalse y hy', hx⟩

/-- Reading a line the loop discards leaves the loop's outcome unchanged:
with every scripted line discarded, the loop reaches the end of the
stream. -/
theorem read_loop_skips (loads : String → Option Value) (resolvedName : String)
    (stderrLines workers : List String) :
    ∀ (stdoutLines : List String), (∀ l ∈ stdoutLines, rpcLineSkipped loads l = true) →
    send_rpc_read_loop loads resolvedName stderrLines workers stdoutLines =
      send_rpc_read_loop loads resolvedName stderrLines workers [] := by
  intro L
  induction L with
  | nil => intro _; rfl
  | cons l t ih =>
    intro h
    have hrest : ∀ y ∈ t, rpcLineSkipped loads y = true :=
      fun y hy => h y (List.mem_cons_of_mem l hy)
    have hl := h l (List.mem_cons_self l t)
    unfold send_rpc_read_loop
    dsimp only
    by_cases h0 : pyStrip l = ""
    · rw [if_pos h0]
      exact ih hrest
    · rw [if_neg h0]
      simp only [rpcLineSkipped, Bool.or_eq_true, decide_eq_true_eq] at hl
      cases hload : loads (pyStrip l) with
      | none =>
        exact ih hrest
      | some v =>
        have hm : pyContainsStr "jsonrpc" v = some false := by
          rcases hl with hc | hc
          · exact absurd hc h0
          · rw [hload] at hc
            simpa using hc
        dsimp only
        rw [hm]
        exact ih hrest

/-- The end-of-stream outcome of the read loop: the worker leaves the
process table and the call raises `RuntimeError`, enriched from the stderr
extraction exactly when it produced a truthy value. -/
theorem read_loop_eof (loads : String → Option Value) (resolvedName : String)
    (stderrLines workers : List String) :
    send_rpc_read_loop loads resolvedName stderrLines workers [] =
      ⟨.error (.runtimeError
         (match _extract_stderr_error loads stderrLines with
          | some e =>
            if e.truthy then "Worker process terminated unexpectedly: " ++ pyStr e
            else "Worker process terminated unexpectedly"
          | none => "Worker process terminated unexpectedly")),
       workers.erase resolvedName⟩ := by
  unfold send_rpc_read_loop
  cases _extract_stderr_error loads stderrLines with
  | none => rfl
  | some e => dsimp only; cases he : e.truthy <;> simp [he]

/-- Claim C2 (amended): for every in-flight RPC call whose output stream
closes before a matching response line arrives (every scripted stdout line
is diagnostic noise the loop discards), the pool removes that worker from
its process table — so it is no longer listed as live and the next call
for that library starts a new process — and the call fails with a
`RuntimeError`; its message is enriched from the tail (last-50 window) of
the worker's diagnostic sink — preferring the most recent JSON line that
carries an `error` field over the most recent non-empty non-noise line —
exactly when the extracted value is truthy, while a missing or falsy
extracted value (`if stderr_error:` at `worker_pool.py` line 194) raises
the plain message, as `claim2_counterexample` shows on a `null` error
value. -/
theorem claim2_stream_close_removes_worker_enriched_error
    (loads : String → Option Value) (resolvedName : String)
    (stderrLines stdoutLines workers : List String)
    (hskip : ∀ l ∈ stdoutLines, rpcLineSkipped loads l = true)
    (hnd : workers.Nodup) :
    (send_rpc_read_loop loads resolvedName stderrLines workers stdoutLines).workers =
      workers.erase resolvedName ∧
    resolvedName ∉ (send_rpc_read_loop loads resolvedName stderrLines workers stdoutLines).workers ∧
    (send_rpc_read_loop loads resolvedName stderrLines workers stdoutLines).result =
      .error (.runtimeError
        (match _extract_stderr_error loads stderrLines with
         | some e =>
           if e.truthy then "Worker process terminated unexpectedly: " ++ pyStr e
           else "Worker process terminated unexpectedly"
         | none => "Worker process terminated unexpectedly")) ∧
    (∀ l ∈ stderrWindow stderrLines, (jsonErrorOf loads l).isSome = true →
       ∃ w₁ x w₂, stderrWindow stderrLines = w₁ ++ x :: w₂ ∧
         (∀ y ∈ w₂, jsonErrorOf loads y = none) ∧
         (jsonErrorOf loads x).isSome = true ∧
         _extract_stderr_error loads stderrLines = jsonErrorOf loads x) ∧
    ((∀ l ∈ stderrWindow stderrLines, jsonErrorOf loads l = none) →
     ∀ l ∈ stderrWindow stderrLines, relevantLine l = true →
       ∃ w₁ x w₂, stderrWindow stderrLines = w₁ ++ x :: w₂ ∧
         (∀ y ∈ w₂, relevantLine y = false) ∧ relevantLine x = true ∧
         _extract_stderr_error loads stderrLines = some (.vStr (pyStrip x))) := by
  have hloop := (read_loop_skips loads resolvedName stderrLines workers stdoutLines hskip).trans
    (read_loop_eof loads resolvedName stderrLines workers)
  refine ⟨by rw [hloop], ?_, by rw [hloop], ?_, ?_⟩
  · rw [hloop]
    exact hnd.not_mem_erase
  · intro l hl hsome
    have hfs : ((stderrWindow stderrLines).reverse.findSome? (jsonErrorOf loads)).isSome = true := by
      rcases Option.isSome_iff_exists.mp hsome with ⟨b, hb⟩
      cases hfind : (stderrWindow stderrLines).reverse.findSome? (jsonErrorOf loads) with
      | some _ => rfl
      | none =>
        have := List.findSome?_eq_none.mp hfind l (List.mem_reverse.mpr hl)
        rw [this] at hb
        cases hb
    rcases Option.isSome_iff_exists.mp hfs with ⟨b, hb⟩
    obtain ⟨R₁, x, R₂, hdec, hnone, hx⟩ := findSome?_decomp (jsonErrorOf loads) _ b hb
    have hw : stderrWindow stderrLines = R₂.reverse ++ x :: R₁.reverse := by
      have hrev := congrArg List.reverse hdec
      rw [List.reverse_reverse] at hrev
      rw [hrev]
      simp [List.reverse_append]
    refine ⟨R₂.reverse, x, R₁.reverse, hw, fun y hy => hnone y (List.mem_reverse.mp hy),
      by rw [hx]; rfl, ?_⟩
    unfold _extract_stderr_error
    rw [hb, hx]
  · intro hall l hl hrel
    have hfsnone : (stderrWindow stderrLines).reverse.findSome? (jsonErrorOf loads) = none :=
      List.findSome?_eq_none.mpr (fun y hy => hall y (List.mem_reverse.mp hy))
    have hfind : ((stderrWindow stderrLines).reverse.find? relevantLine).isSome = true := by
      cases hf : (stderrWindow stderrLines).reverse.find? relevantLine with
      | some _ => rfl
      | none =>
        have := List.find?_eq_none.mp hf l (List.mem_reverse.mpr hl)
        rw [hrel] at this
        exact absurd rfl this
    rcases Option.isSome_iff_exists.mp hfind with ⟨x, hx⟩
    obtain ⟨R₁, R₂, hdec, hfalse, hpx⟩ := find?_decomp relevantLine _ x hx
    have hw : stderrWindow stderrLines = R₂.reverse ++ x :: R₁.reverse := by
      have hrev := congrArg List.reverse hdec
      rw [List.reverse_reverse] at hrev
      rw [hrev]
      simp [List.reverse_append]
    refine ⟨R₂.reverse, x, R₁.reverse, hw, fun y hy => hfalse y (List.mem_reverse.mp hy),
      hpx, ?_⟩
    unfold _extract_stderr_error
    rw [hfsnone, hx]
    rfl

/-- Counterexample to C2 as literally stated: a stderr tail whose most
recent JSON `error` line carries the falsy value `null` is extracted
(`some vNone`), yet the call raises the plain, un-enriched message —
`worker_pool.py` line 194's truthiness test skips the enrichment the
claim asserts unconditionally. -/
theorem claim2_counterexample :
    _extract_stderr_error
        (fun s => if s = "ERRNULL" then some (.vDict [("error", .vNone)]) else none)
        ["ERRNULL"] = some Value.vNone ∧
    (send_rpc_read_loop
        (fun s => if s = "ERRNULL" then some (.vDict [("error", .vNone)]) else none)
        "lib" ["ERRNULL"] ["lib"] []).result =
      .error (.runtimeError "Worker process terminated unexpectedly") ∧
    ("Worker process terminated unexpectedly" : String) ≠
      "Worker process terminated unexpectedly: " ++ pyStr Value.vNone :=
  ⟨rfl, rfl, by decide⟩

/-- Witness for C2: a concrete stream-close scenario — the pool's table
holds the worker, stdout yields one blank and one non-JSON line before
closing, and the stderr tail holds a truthy JSON `error` line after a
noise line; the call fails enriched with that error and the worker is
delisted. -/
theorem claim2_stream_close_removes_worker_enriched_error_witness :
    (∀ l ∈ ["", "junk"],
       rpcLineSkipped (fun s => if s = "ERRLINE" then some (.vDict [("error", .vStr "boom")])
         else none) l = true) ∧
    (["lib"] : List String).Nodup ∧
    (send_rpc_read_loop
        (fun s => if s = "ERRLINE" then some (.vDict [("error", .vStr "boom")]) else none)
        "lib" ["SyntaxWarning: old", "ERRLINE"] ["lib"] ["", "junk"]).workers =
      (["lib"] : List String).erase "lib" ∧
    (send_rpc_read_loop
        (fun s => if s = "ERRLINE" then some (.vDict [("error", .vStr "boom")]) else none)
        "lib" ["SyntaxWarning: old", "ERRLINE"] ["lib"] ["", "junk"]).result =
      .error (.runtimeError "Worker process terminated unexpectedly: boom") :=
  ⟨by decide, by decide,
   (claim2_stream_close_removes_worker_enriched_error
      (fun s => if s = "ERRLINE" then some (.vDict [("error", .vStr "boom")]) else none)
      "lib" ["SyntaxWarning: old", "ERRLINE"] ["", "junk"] ["lib"] (by decide) (by decide)).1,
   ((claim2_stream_close_removes_worker_enriched_error
      (fun s => if s = "ERRLINE" then some (.vDict [("error", .vStr "boom")]) else none)
      "lib" ["SyntaxWarning: old", "ERRLINE"] ["", "junk"] ["lib"] (by decide) (by decide)).2.2.1).trans
     (by rfl)⟩

end CalibreMcp
